import Mathlib

/-!
Verification development for the segment/wall connectivity and mesh
generation engine of the lifescape repository.

The geometry code of the repository works on 32-bit floats; this shallow
embedding idealises scalars as rationals, which makes every arithmetic
operation that the source performs (addition, subtraction, multiplication,
division, comparison) exact and executable.  Operations that have no exact
rational counterpart (square root inside vector normalization, the
trigonometric functions behind angle computation, and the external
ear-clipping library) are passed in as explicit function parameters, so the
theorems below quantify over every possible behaviour of those external
collaborators.
-/

/-- 2D vector with rational components, mirroring glam's Vec2 as used by
the repository. -/
structure V2 where
  x : ℚ
  y : ℚ
deriving DecidableEq, Repr

instance : Add V2 := ⟨fun a b => ⟨a.x + b.x, a.y + b.y⟩⟩

instance : Sub V2 := ⟨fun a b => ⟨a.x - b.x, a.y - b.y⟩⟩

instance : Neg V2 := ⟨fun a => ⟨-a.x, -a.y⟩⟩

instance : HMul V2 ℚ V2 := ⟨fun v q => ⟨v.x * q, v.y * q⟩⟩

instance : HMul ℚ V2 V2 := ⟨fun q v => ⟨q * v.x, q * v.y⟩⟩

/-- glam Vec2::perp: the vector rotated by 90 degrees, (-y, x). -/
def V2.perp (v : V2) : V2 := ⟨-v.y, v.x⟩

/-- glam Vec2::perp_dot: the 2D cross product a.x * b.y - a.y * b.x. -/
def V2.perpDot (a b : V2) : ℚ := a.x * b.y - a.y * b.x

/-- glam Vec2::dot. -/
def V2.dot (a b : V2) : ℚ := a.x * b.x + a.y * b.y

/-- glam Vec2::length_squared. -/
def V2.lengthSquared (v : V2) : ℚ := v.x * v.x + v.y * v.y

/-- glam Vec2::normalize, v / v.length().  The square root inside the
length computation has no exact rational counterpart, so it is passed in
as the function parameter sq (theorems quantify over it). -/
def V2.normalizeW (sq : ℚ → ℚ) (v : V2) : V2 :=
  let len := sq (v.lengthSquared)
  ⟨v.x / len, v.y / len⟩

/-- 3D point with rational components, mirroring the [f32; 3] vertex
entries and glam's Vec3 used by the mesh generator. -/
structure V3 where
  x : ℚ
  y : ℚ
  z : ℚ
deriving DecidableEq, Repr

instance : Add V3 := ⟨fun a b => ⟨a.x + b.x, a.y + b.y, a.z + b.z⟩⟩

/-- glam Vec3::xz swizzle. -/
def V3.xz (v : V3) : V2 := ⟨v.x, v.z⟩

/-- Segment from src/base/src/game_world/segment.rs: a 2D line segment
with start and end points (the end field is named endp because end is a
reserved word in Lean). -/
structure Segment where
  start : V2
  endp : V2
deriving DecidableEq, Repr

/-- Segment::new. -/
def Segment.new (s e : V2) : Segment := ⟨s, e⟩

/-- Segment::splat: a segment with the same start and end points. -/
def Segment.splat (point : V2) : Segment := ⟨point, point⟩

/-- Segment::displacement: end - start. -/
def Segment.displacement (s : Segment) : V2 := s.endp - s.start

/-- Segment::inverse: swaps end and start. -/
def Segment.inverse (s : Segment) : Segment := ⟨s.endp, s.start⟩

/-- Segment::is_zero. -/
def Segment.isZero (s : Segment) : Bool := s.start = s.endp

/-- impl Add<Vec2> for Segment: translates both points. -/
instance : HAdd Segment V2 Segment :=
  ⟨fun s v => ⟨s.start + v, s.endp + v⟩⟩

/-- impl Sub<Vec2> for Segment: translates both points. -/
instance : HSub Segment V2 Segment :=
  ⟨fun s v => ⟨s.start - v, s.endp - v⟩⟩

/-- Segment::contains from src/base/src/game_world/segment.rs lines
186-199: rejects when the absolute perp-dot of the displacement and the
point displacement exceeds 0.1, then checks that the dot product lies in
[0, length_squared]. -/
def Segment.contains (s : Segment) (point : V2) : Bool :=
  let disp := s.displacement
  let pointDisp := point - s.start
  if |disp.perpDot pointDisp| > 1/10 then
    false
  else
    let dt := disp.dot pointDisp
    if dt < 0 then
      false
    else
      dt ≤ disp.lengthSquared

/-- Segment::line_intersection from segment.rs lines 235-247: solves the
infinite-line intersection via perp-dot; None when the determinant is
exactly zero. -/
def Segment.lineIntersection (s other : Segment) : Option V2 :=
  let disp := s.displacement
  let otherDisp := other.displacement
  let determinant := disp.perpDot otherDisp
  if determinant = 0 then
    none
  else
    let t := (other.start - s.start).perpDot otherDisp / determinant
    some (s.start + t * disp)

/-- itertools::MinMaxResult, the neighbor classification consumed by the
offsetting code. -/
inductive MinMaxResult (α : Type) where
  | NoElements : MinMaxResult α
  | OneElement : α → MinMaxResult α
  | MinMax : α → α → MinMaxResult α
deriving DecidableEq, Repr

/-- Segment::offset_points from src/base/src/game_world/segment.rs lines
267-299: left/right boundary points for the start of the segment,
intersecting the shifted boundary lines with the neighbors' shifted
boundary lines and falling back to the plain offset points. -/
def Segment.offsetPoints (sq : ℚ → ℚ) (s : Segment) (widthDisp : V2)
    (halfWidth : ℚ) (connections : MinMaxResult Segment) : V2 × V2 :=
  match connections with
  | .NoElements => (s.start + widthDisp, s.start - widthDisp)
  | .OneElement otherSegment =>
    let otherWidth := (V2.normalizeW sq otherSegment.displacement.perp) * halfWidth
    let left := ((s + widthDisp).lineIntersection (otherSegment - otherWidth)).getD
      (s.start + widthDisp)
    let right := ((s - widthDisp).lineIntersection (otherSegment.inverse + otherWidth)).getD
      (s.start - widthDisp)
    (left, right)
  | .MinMax minSegment maxSegment =>
    let maxWidth := (V2.normalizeW sq maxSegment.displacement.perp) * halfWidth
    let left := ((s + widthDisp).lineIntersection (maxSegment - maxWidth)).getD
      (s.start + widthDisp)
    let minWidth := (V2.normalizeW sq minSegment.displacement.perp) * halfWidth
    let right := ((s - widthDisp).lineIntersection (minSegment.inverse + minWidth)).getD
      (s.start - widthDisp)
    (left, right)

/-- PointKind from segment.rs: which endpoint of a segment a connection
concerns. -/
inductive PointKind where
  | Start : PointKind
  | End : PointKind
deriving DecidableEq, Repr

/-- PointKind::inverse. -/
def PointKind.inverse : PointKind → PointKind
  | .Start => .End
  | .End => .Start

/-- Entity: the opaque stable identifier handed out by the surrounding
ECS; the connectivity code only compares entities for equality. -/
abbrev Entity := Nat

/-- SegmentConnection from segment.rs: a connection record holding the
neighbor entity, a snapshot of its segment, and the neighbor endpoint. -/
structure SegmentConnection where
  entity : Entity
  segment : Segment
  kind : PointKind
deriving DecidableEq, Repr

/-- SegmentConnections from segment.rs: the per-endpoint adjacency lists
(the end-point list is named endp because end is reserved in Lean). -/
structure SegmentConnections where
  start : List SegmentConnection
  endp : List SegmentConnection
deriving DecidableEq, Repr

/-- Default::default() for SegmentConnections: both lists empty (what
mem::take leaves behind). -/
def SegmentConnections.empty : SegmentConnections := ⟨[], []⟩

/-- SegmentConnections::get. -/
def SegmentConnections.get (c : SegmentConnections) : PointKind → List SegmentConnection
  | .Start => c.start
  | .End => c.endp

/-- Vec::push on the list selected by get_mut: appends at the tail. -/
def SegmentConnections.push (c : SegmentConnections) (k : PointKind)
    (r : SegmentConnection) : SegmentConnections :=
  match k with
  | .Start => ⟨c.start ++ [r], c.endp⟩
  | .End => ⟨c.start, c.endp ++ [r]⟩

/-- The connectivity state of the world: every entity's SegmentConnections
component.  The segment geometry and visibility of entities do not change
during a connectivity pass, so they are modelled as separate read-only
functions where needed. -/
abbrev ConnWorld := Entity → SegmentConnections

/-- The body of the iter().position(..) / remove(index) idiom of
disconnect_all: remove the first record whose entity equals the
disconnected entity; none if the list holds no such record. -/
def removeRef : List SegmentConnection → Entity → Option (List SegmentConnection)
  | [], _ => none
  | c :: rest, e =>
    if c.entity = e then some rest
    else (removeRef rest e).map (c :: ·)

/-- The inner loop of disconnect_all over [Start, End] with break: search
the neighbor's Start list first, then its End list, removing at most one
matching record. -/
def SegmentConnections.removeBackRef (c : SegmentConnections) (e : Entity) :
    SegmentConnections :=
  match removeRef c.start e with
  | some l => ⟨l, c.endp⟩
  | none =>
    match removeRef c.endp e with
    | some l => ⟨c.start, l⟩
    | none => c

/-- One step of the teardown loop of disconnect_all: remove the
back-reference to the disconnected entity from one neighbor. -/
def disconnectStep (e : Entity) (acc : ConnWorld) (c : SegmentConnection) : ConnWorld :=
  Function.update acc c.entity ((acc c.entity).removeBackRef e)

/-- disconnect_all from segment.rs lines 118-147: takes the component of
the disconnected entity (leaving it empty) and, for every record it held,
removes the matching back-reference from that neighbor's lists. -/
def disconnectAll (w : ConnWorld) (e : Entity) : ConnWorld :=
  let taken := w e
  let w1 := Function.update w e SegmentConnections.empty
  (taken.start ++ taken.endp).foldl (disconnectStep e) w1

/-- The endpoint-pairing if-chain of update_connections (segment.rs lines
71-81): the four pairings are tested in the priority order start-start,
start-end, end-end, end-start and the first equality wins. -/
def connectPoints (s o : Segment) : Option (PointKind × PointKind) :=
  if s.start = o.start then some (.Start, .Start)
  else if s.start = o.endp then some (.Start, .End)
  else if s.endp = o.endp then some (.End, .End)
  else if s.endp = o.start then some (.End, .Start)
  else none

/-- The same four comparisons as performed by the if/else-if chain of
WallPlugin::connections_update_system in src/src/core/wall.rs lines
156-200, written as the pair of endpoint kinds each branch records
(for the changed wall and for the sibling respectively). -/
def wallConnectPoints (w o : Segment) : Option (PointKind × PointKind) :=
  if w.start = o.start then some (.Start, .Start)
  else if w.start = o.endp then some (.Start, .End)
  else if w.endp = o.endp then some (.End, .End)
  else if w.endp = o.start then some (.End, .Start)
  else none

/-- One step of the sibling scan of update_connections (segment.rs lines
62-96): skip hidden siblings and self; otherwise test the four pairings
and on the first match push the bidirectional record pair. -/
def connectStep (segOf : Entity → Segment) (hidden : Entity → Bool) (e : Entity)
    (seg : Segment) (acc : SegmentConnections × ConnWorld) (other : Entity) :
    SegmentConnections × ConnWorld :=
  if hidden other || other = e then acc
  else
    match connectPoints seg (segOf other) with
    | none => acc
    | some (frm, toK) =>
      (acc.1.push frm ⟨other, segOf other, toK⟩,
       Function.update acc.2 other ((acc.2 other).push toK ⟨e, seg, frm⟩))

/-- update_connections from segment.rs lines 45-103, for one changed
segment: tear down its existing connections, then, if the segment is
non-degenerate and visible, scan the sibling entities (the children of
its parent) re-establishing connections, and finally write the rebuilt
connection set back. -/
def updateConnections (segOf : Entity → Segment) (hidden : Entity → Bool)
    (children : List Entity) (e : Entity) (w : ConnWorld) : ConnWorld :=
  let w1 := disconnectAll w e
  let seg := segOf e
  if seg.start ≠ seg.endp ∧ hidden e = false then
    let scanned := children.foldl (connectStep segOf hidden e seg)
      (SegmentConnections.empty, w1)
    Function.update scanned.2 e scanned.1
  else
    w1

/-- Number of records referencing a given entity across both endpoint
lists of a SegmentConnections component. -/
def SegmentConnections.refCount (c : SegmentConnections) (a : Entity) : Nat :=
  c.start.countP (fun r => r.entity = a) + c.endp.countP (fun r => r.entity = a)

/-- The connectivity-symmetry invariant: every record of A referencing B
is mirrored by exactly one record of B referencing A, located in the list
named by the record's endpoint kind and carrying the complementary
endpoint kind. -/
def ConnSymmetric (w : ConnWorld) : Prop :=
  ∀ a k r, r ∈ (w a).get k →
    r.entity ≠ a ∧
    (w r.entity).refCount a = 1 ∧
    ∃ r', r' ∈ (w r.entity).get r.kind ∧ r'.entity = a ∧ r'.kind = k

/-- The external ear-clipping routine (the earcut crate) is an external
collaborator: it consumes projected 2D points plus hole start indices and
fills a flat index buffer.  Theorems quantify over it. -/
abbrev EarcutFn := List V2 → List Nat → List Nat

/-- The winding-inversion loop of Triangulator::triangulate: for every
exact chunk of three indices swap the first and last entry; a trailing
partial chunk is left untouched (chunks_exact_mut). -/
def swapWinding : List Nat → List Nat
  | a :: b :: c :: rest => c :: b :: a :: swapWinding rest
  | rest => rest

/-- Triangulator from
src/base/src/game_world/family/building/wall/triangulator.rs: a stateful
wrapper around the ear-clipping library that accumulates hole start
indices between triangulate calls.  (The reused index buffer is an
allocation optimization; the earcut call overwrites it, so it is modelled
as the returned list.) -/
structure Triangulator where
  holeIndices : List Nat
deriving DecidableEq, Repr

/-- Triangulator::add_hole. -/
def Triangulator.addHole (t : Triangulator) (index : Nat) : Triangulator :=
  ⟨t.holeIndices ++ [index]⟩

/-- Triangulator::triangulate from triangulator.rs lines 12-28: projects
each [x, y, _] vertex to [x, y] (the third component is dropped), runs
the ear-clipping routine with the registered hole indices, clears the
hole list, and swaps the winding of every full triangle when
inverse_winding is set. -/
def Triangulator.triangulate (earcutF : EarcutFn) (t : Triangulator)
    (positions : List V3) (inverseWinding : Bool) : List Nat × Triangulator :=
  let res := earcutF (positions.map (fun p => ⟨p.x, p.y⟩)) t.holeIndices
  let res := if inverseWinding then swapWinding res else res
  (res, ⟨[]⟩)

/-- The triangulate operation exactly as the specification words it
(written from the spec, to be compared with Triangulator.triangulate):
ear-clipping runs over the XZ-projection of the point buffer, meaning
the Y coordinate of each point is dropped and X and Z are kept. -/
def specTriangulateXZ (earcutF : EarcutFn) (t : Triangulator)
    (positions : List V3) (inverseWinding : Bool) : List Nat × Triangulator :=
  let res := earcutF (positions.map (fun p => ⟨p.x, p.z⟩)) t.holeIndices
  let res := if inverseWinding then swapWinding res else res
  (res, ⟨[]⟩)

/-- The external and transcendental collaborators of the mesh generator,
passed as explicit parameters: the f32 square root (inside normalize),
Vec2::to_angle and angle_between (atan2-based), cosine and sine (inside
Mat2::from_angle and the quaternion rotation), the f32 values of pi and
pi/2, and the ear-clipping routine.  Theorems quantify over all of them
unless a claim pins them down. -/
structure ExtOracles where
  sqrtQ : ℚ → ℚ
  toAngle : V2 → ℚ
  angleBt : V2 → V2 → ℚ
  cosQ : ℚ → ℚ
  sinQ : ℚ → ℚ
  halfPiQ : ℚ
  piQ : ℚ
  earcutF : EarcutFn

/-- Mat2::from_angle applied to a vector: the rotation matrix built from
the cosine and sine of the angle. -/
def rotApply (cosA sinA : ℚ) (v : V2) : V2 :=
  ⟨cosA * v.x - sinA * v.y, sinA * v.x + cosA * v.y⟩

/-- const WIDTH from wall_mesh.rs. -/
def WIDTH : ℚ := 15/100

/-- const HEIGHT from wall_mesh.rs. -/
def HEIGHT : ℚ := 28/10

/-- const HALF_WIDTH from wall_mesh.rs. -/
def HALF_WIDTH : ℚ := WIDTH / 2

/-- wall_width from wall_mesh.rs lines 333-335: the thickness vector
facing left of the wall vector. -/
def wallWidth (ext : ExtOracles) (disp : V2) : V2 :=
  (V2.normalizeW ext.sqrtQ disp.perp) * HALF_WIDTH

/-- WallConnection as consumed by wall_mesh.rs (its declaration lives in
the crate's wall module, which is not under src/).  Modelled from the
spec: a connection record carries the neighbor endpoint kind and a
snapshot of the neighbor segment; wall_mesh.rs reads exactly the
point_kind and segment fields of it. -/
structure WallConnection where
  pointKind : PointKind
  segment : Segment
deriving DecidableEq, Repr

/-- WallConnections as consumed by wall_mesh.rs.  Modelled from the spec:
per-endpoint lists of connection records (field endp is the End list). -/
structure WallConnections where
  start : List WallConnection
  endp : List WallConnection
deriving DecidableEq, Repr

/-- Aperture as consumed by wall_mesh.rs (declared in the missing wall
module).  Modelled from the spec: cutout outline polygon, 3D translation
along the segment, and the hole / placing_object flags; wall_mesh.rs
reads exactly these four fields. -/
structure Aperture where
  cutout : List V2
  translation : V3
  hole : Bool
  placingObject : Bool
deriving DecidableEq, Repr

/-- The direction unification of minmax_angles (wall_mesh.rs lines
380-389): a neighbor's segment vector is flipped so that all compared
vectors point away from the shared joint. -/
def unifyConnection (pointKind : PointKind) (c : WallConnection) : Segment :=
  match pointKind, c.pointKind with
  | .Start, .End => c.segment.inverse
  | .End, .Start => c.segment
  | .Start, .Start => c.segment
  | .End, .End => c.segment.inverse

/-- itertools minmax_by_key: NoElements for an empty iterator, OneElement
for a singleton, and otherwise the element with minimal key (first such)
and the element with maximal key (last such). -/
def minmaxByKey {α : Type} (key : α → ℚ) : List α → MinMaxResult α
  | [] => .NoElements
  | [x] => .OneElement x
  | x :: y :: rest =>
    let init := if key y < key x then (y, x) else (x, y)
    let mm := rest.foldl
      (fun (p : α × α) z =>
        if key z < key p.1 then (z, p.2)
        else if key p.2 ≤ key z then (p.1, z)
        else p)
      init
    .MinMax mm.1 mm.2

/-- minmax_angles from wall_mesh.rs lines 374-398: unify the directions
of the connected segments and classify them by the angle to the
displacement vector folded into [0, 2*pi). -/
def minmaxAngles (ext : ExtOracles) (disp : V2) (pointKind : PointKind)
    (pointConnections : List WallConnection) : MinMaxResult Segment :=
  minmaxByKey
    (fun s =>
      let angle := ext.angleBt s.displacement disp
      if angle < 0 then angle + 2 * ext.piQ else angle)
    (pointConnections.map (unifyConnection pointKind))

/-- offset_points from wall_mesh.rs lines 339-370.  Note: in this version
of the function the fallback of the right point in the OneElement and
MinMax branches is segment.start + width in the source (not
segment.start - width), and the embedding mirrors that. -/
def offsetPointsWM (ext : ExtOracles) (segment : Segment)
    (connections : MinMaxResult Segment) (width : V2) : V2 × V2 :=
  match connections with
  | .NoElements => (segment.start + width, segment.start - width)
  | .OneElement otherSegment =>
    let otherWidth := wallWidth ext otherSegment.displacement
    let left := ((segment + width).lineIntersection
      (otherSegment - otherWidth)).getD (segment.start + width)
    let right := ((segment - width).lineIntersection
      (otherSegment.inverse + otherWidth)).getD (segment.start + width)
    (left, right)
  | .MinMax minSegment maxSegment =>
    let maxWidth := wallWidth ext maxSegment.displacement
    let left := ((segment + width).lineIntersection
      (maxSegment - maxWidth)).getD (segment.start + width)
    let minWidth := wallWidth ext minSegment.displacement
    let right := ((segment - width).lineIntersection
      (minSegment.inverse + minWidth)).getD (segment.start + width)
    (left, right)

/-- The Triangulator used by wall_mesh.rs.  Its module is not under src/;
modelled from the spec and from the base crate's triangulator: it
accumulates hole indices, stores the winding-inversion flag set by the
mesh generator, projects each vertex by dropping its third component,
invokes the ear-clipping routine, clears the holes and optionally swaps
the winding of every full output triangle. -/
structure TriState where
  holeIndices : List Nat
  inverseWinding : Bool
deriving DecidableEq, Repr

/-- Triangulator::add_hole (stateful wrapper variant). -/
def TriState.addHole (t : TriState) (index : Nat) : TriState :=
  { t with holeIndices := t.holeIndices ++ [index] }

/-- Triangulator::set_inverse_winding.  Modelled from the spec: the mesh
generator chooses the winding before each side. -/
def TriState.setInverseWinding (t : TriState) (b : Bool) : TriState :=
  { t with inverseWinding := b }

/-- Triangulator::triangulate (stateful wrapper variant used by
wall_mesh.rs). -/
def TriState.triangulate (earcutF : EarcutFn) (t : TriState)
    (positions : List V3) : List Nat × TriState :=
  let res := earcutF (positions.map (fun p => ⟨p.x, p.y⟩)) t.holeIndices
  let res := if t.inverseWinding then swapWinding res else res
  (res, { t with holeIndices := [] })

/-- WallMesh from wall_mesh.rs: the four output buffers. -/
structure WallMesh where
  positions : List V3
  uvs : List V2
  normals : List V3
  indices : List Nat
deriving DecidableEq, Repr

/-- The cleared WallMesh (WallMesh::clear leaves all four buffers
empty). -/
def WallMesh.empty : WallMesh := ⟨[], [], [], []⟩

/-- WallMesh::generate_top from wall_mesh.rs lines 130-161: the quad over
the four boundary corners at full height, with literal indices (the top
cap is always emitted first). -/
def generateTop (m : WallMesh) (segment : Segment)
    (startLeft startRight endLeft endRight : V2) (cosA sinA : ℚ) : WallMesh :=
  { positions := m.positions ++
      [⟨startLeft.x, HEIGHT, startLeft.y⟩, ⟨startRight.x, HEIGHT, startRight.y⟩,
       ⟨endRight.x, HEIGHT, endRight.y⟩, ⟨endLeft.x, HEIGHT, endLeft.y⟩]
    uvs := m.uvs ++
      [rotApply cosA sinA (startLeft - segment.start),
       rotApply cosA sinA (startRight - segment.start),
       rotApply cosA sinA (endRight - segment.start),
       rotApply cosA sinA (endLeft - segment.start)]
    normals := m.normals ++ [⟨0, 1, 0⟩, ⟨0, 1, 0⟩, ⟨0, 1, 0⟩, ⟨0, 1, 0⟩]
    indices := m.indices ++ [0, 3, 1, 1, 3, 2] }

/-- The loop body of WallMesh::generate_apertures for one cutout point:
rotate about Y by the wall angle, translate, and push the vertex, its UV
and the side normal. -/
def generateAperturePoint (segment : Segment) (aperture : Aperture) (normal : V3)
    (width : V2) (cosA sinA : ℚ) (m : WallMesh) (p : V2) : WallMesh :=
  let translated : V3 := ⟨p.x * cosA, p.y, -(p.x * sinA)⟩ + aperture.translation
    + ⟨width.x, 0, width.y⟩
  let bottomUv := rotApply cosA sinA (translated.xz - segment.start)
  { positions := m.positions ++ [translated]
    uvs := m.uvs ++ [⟨bottomUv.x, bottomUv.y + p.y⟩]
    normals := m.normals ++ [normal]
    indices := m.indices }

/-- WallMesh::generate_apertures from wall_mesh.rs lines 210-231: push
every cutout point rotated about Y by the wall angle, translated by the
aperture translation and the width vector; UVs reuse the rotated bottom
position with the cutout height added. -/
def generateApertures (m : WallMesh) (segment : Segment) (aperture : Aperture)
    (normal : V3) (width : V2) (cosA sinA : ℚ) : WallMesh :=
  aperture.cutout.foldl
    (generateAperturePoint segment aperture normal width cosA sinA) m

/-- One push of a vertex with its UV and normal onto the attribute
buffers (the positions/uvs/normals push triple of the source). -/
def pushAttrs (m : WallMesh) (p : V3) (uv : V2) (n : V3) : WallMesh :=
  ⟨m.positions ++ [p], m.uvs ++ [uv], m.normals ++ [n], m.indices⟩

/-- The non-hole aperture loop body of WallMesh::generate_side. -/
def sideApertureStep (segment : Segment) (normal : V3) (width : V2)
    (cosA sinA : ℚ) (m : WallMesh) (a : Aperture) : WallMesh :=
  generateApertures m segment a normal width cosA sinA

/-- The hole-aperture loop body of WallMesh::generate_side: push the
cutout vertices, register the hole start index with the triangulator, and
advance the running sub-buffer index by the cutout size. -/
def holeStep (segment : Segment) (normal : V3) (width : V2) (cosA sinA : ℚ)
    (acc : WallMesh × TriState × Nat) (a : Aperture) : WallMesh × TriState × Nat :=
  (generateApertures acc.1 segment a normal width cosA sinA,
   acc.2.1.addHole acc.2.2,
   acc.2.2 + a.cutout.length)

/-- WallMesh::generate_side from wall_mesh.rs lines 163-208: the polygon
strip of one side face (bottom start, non-hole aperture cutouts, bottom
end, top end, top start), hole apertures registered with the
triangulator, and the triangulated indices shifted by the side's base
vertex index. -/
def generateSide (ext : ExtOracles) (m : WallMesh) (t : TriState)
    (segment : Segment) (apertures : List Aperture)
    (startSide endSide width : V2) (cosA sinA : ℚ) : WallMesh × TriState :=
  let verticesStart := m.positions.length
  let startUv := rotApply cosA sinA (startSide - segment.start)
  let normal : V3 := ⟨width.x, 0, width.y⟩
  let m := pushAttrs m ⟨startSide.x, 0, startSide.y⟩ startUv normal
  let m := (apertures.filter (fun a => !a.hole)).foldl
    (sideApertureStep segment normal width cosA sinA) m
  let endUv := rotApply cosA sinA (endSide - segment.start)
  let m := pushAttrs m ⟨endSide.x, 0, endSide.y⟩ endUv normal
  let m := pushAttrs m ⟨endSide.x, HEIGHT, endSide.y⟩ ⟨endUv.x, endUv.y + HEIGHT⟩ normal
  let m := pushAttrs m ⟨startSide.x, HEIGHT, startSide.y⟩ ⟨startUv.x, startUv.y + HEIGHT⟩ normal
  let lastIndex := m.positions.length - verticesStart
  let folded := (apertures.filter (fun a => a.hole)).foldl
    (holeStep segment normal width cosA sinA) (m, t, lastIndex)
  let m := folded.1
  let tri := TriState.triangulate ext.earcutF folded.2.1 (m.positions.drop verticesStart)
  ({ m with indices := m.indices ++ tri.1.map (· + verticesStart) }, tri.2)

/-- WallMesh::generate_front from wall_mesh.rs lines 233-255: the
rectangular cap quad at a free start. -/
def generateFront (m : WallMesh) (startLeft startRight disp : V2) : WallMesh :=
  let verticesStart := m.positions.length
  { positions := m.positions ++
      [⟨startLeft.x, 0, startLeft.y⟩, ⟨startLeft.x, HEIGHT, startLeft.y⟩,
       ⟨startRight.x, HEIGHT, startRight.y⟩, ⟨startRight.x, 0, startRight.y⟩]
    uvs := m.uvs ++ [⟨0, 0⟩, ⟨0, HEIGHT⟩, ⟨WIDTH, HEIGHT⟩, ⟨WIDTH, 0⟩]
    normals := m.normals ++ (List.replicate 4 ⟨-disp.x, 0, -disp.y⟩)
    indices := m.indices ++
      [verticesStart, verticesStart + 1, verticesStart + 3,
       verticesStart + 1, verticesStart + 2, verticesStart + 3] }

/-- WallMesh::generate_back from wall_mesh.rs lines 257-279: the
rectangular cap quad at a free end. -/
def generateBack (m : WallMesh) (endLeft endRight disp : V2) : WallMesh :=
  let verticesStart := m.positions.length
  { positions := m.positions ++
      [⟨endLeft.x, 0, endLeft.y⟩, ⟨endLeft.x, HEIGHT, endLeft.y⟩,
       ⟨endRight.x, HEIGHT, endRight.y⟩, ⟨endRight.x, 0, endRight.y⟩]
    uvs := m.uvs ++ [⟨0, 0⟩, ⟨0, HEIGHT⟩, ⟨WIDTH, HEIGHT⟩, ⟨WIDTH, 0⟩]
    normals := m.normals ++ (List.replicate 4 ⟨disp.x, 0, disp.y⟩)
    indices := m.indices ++
      [verticesStart, verticesStart + 3, verticesStart + 1,
       verticesStart + 1, verticesStart + 3, verticesStart + 2] }

/-- WallMesh::generate_start_connection from wall_mesh.rs lines 282-294:
the single fan triangle filling a 3+-way junction at the start. -/
def generateStartConnection (m : WallMesh) (segment : Segment) : WallMesh :=
  let verticesStart := m.positions.length
  { positions := m.positions ++ [⟨segment.start.x, HEIGHT, segment.start.y⟩]
    uvs := m.uvs ++ [⟨0, 0⟩]
    normals := m.normals ++ [⟨0, 1, 0⟩]
    indices := m.indices ++ [1, verticesStart, 0] }

/-- WallMesh::generate_end_connection from wall_mesh.rs lines 297-308:
the single fan triangle filling a 3+-way junction at the end. -/
def generateEndConnection (m : WallMesh) (segment : Segment) (cosA sinA : ℚ) :
    WallMesh :=
  let verticesStart := m.positions.length
  { positions := m.positions ++ [⟨segment.endp.x, HEIGHT, segment.endp.y⟩]
    uvs := m.uvs ++ [rotApply cosA sinA (segment.endp - segment.start)]
    normals := m.normals ++ [⟨0, 1, 0⟩]
    indices := m.indices ++ [3, verticesStart, 2] }

/-- The start end-cap match of WallMesh::generate (wall_mesh.rs lines
117-121): one neighbor means no cap, a free end gets the front cap quad,
a 3+-way junction gets the fan triangle. -/
def applyStartCap (m : WallMesh) (wall : Segment) (startLeft startRight disp : V2) :
    MinMaxResult Segment → WallMesh
  | .OneElement _ => m
  | .NoElements => generateFront m startLeft startRight disp
  | .MinMax _ _ => generateStartConnection m wall

/-- The end end-cap match of WallMesh::generate (wall_mesh.rs lines
123-127). -/
def applyEndCap (m : WallMesh) (wall : Segment) (endLeft endRight disp : V2)
    (cosA sinA : ℚ) : MinMaxResult Segment → WallMesh
  | .OneElement _ => m
  | .NoElements => generateBack m endLeft endRight disp
  | .MinMax _ _ => generateEndConnection m wall cosA sinA

/-- Cap vertex contribution per classification. -/
def capVerts : MinMaxResult Segment → Nat
  | .NoElements => 4
  | .OneElement _ => 0
  | .MinMax _ _ => 1

/-- Cap triangle contribution per classification. -/
def capTris : MinMaxResult Segment → Nat
  | .NoElements => 2
  | .OneElement _ => 0
  | .MinMax _ _ => 1

/-- The prefix of WallMesh::generate up to and including both side faces
(wall_mesh.rs lines 70-115): displacement, angle, width, offset boundary
points, the top cap and the two sides with the winding flags the source
sets.  The end-cap match blocks are applied on top of this by generate. -/
def generateCore (ext : ExtOracles) (wall : Segment) (connections : WallConnections)
    (apertures : List Aperture) (t : TriState) : WallMesh × TriState :=
  let disp := wall.displacement
  let angle := -(ext.toAngle disp)
  let width := wallWidth ext disp
  let cosA := ext.cosQ angle
  let sinA := ext.sinQ angle
  let startConnections := minmaxAngles ext disp .Start connections.start
  let sp := offsetPointsWM ext wall startConnections width
  let endConnections := minmaxAngles ext (-disp) .End connections.endp
  let ep := offsetPointsWM ext wall.inverse endConnections (-width)
  let startLeft := sp.1
  let startRight := sp.2
  let endRight := ep.1
  let endLeft := ep.2
  let m := generateTop WallMesh.empty wall startLeft startRight endLeft endRight cosA sinA
  let inverseWinding := decide (|angle| < ext.halfPiQ)
  let t := t.setInverseWinding inverseWinding
  let st := generateSide ext m t wall apertures startRight endRight (-width) cosA sinA
  let t := st.2.setInverseWinding (!inverseWinding)
  generateSide ext st.1 t wall apertures startLeft endLeft width cosA sinA

/-- WallMesh::generate from wall_mesh.rs lines 57-128: clears the
buffers, returns immediately for a degenerate wall, otherwise emits top,
both sides (via generateCore) and the end caps chosen by the neighbor
classification of each end. -/
def WallMesh.generate (ext : ExtOracles) (wall : Segment)
    (connections : WallConnections) (apertures : List Aperture) (t : TriState) :
    WallMesh × TriState :=
  if wall.start = wall.endp then (WallMesh.empty, t)
  else
    let disp := wall.displacement
    let angle := -(ext.toAngle disp)
    let width := wallWidth ext disp
    let cosA := ext.cosQ angle
    let sinA := ext.sinQ angle
    let startConnections := minmaxAngles ext disp .Start connections.start
    let sp := offsetPointsWM ext wall startConnections width
    let endConnections := minmaxAngles ext (-disp) .End connections.endp
    let ep := offsetPointsWM ext wall.inverse endConnections (-width)
    let startLeft := sp.1
    let startRight := sp.2
    let endRight := ep.1
    let endLeft := ep.2
    let core := generateCore ext wall connections apertures t
    let m := applyStartCap core.1 wall startLeft startRight disp startConnections
    let m := applyEndCap m wall endLeft endRight disp cosA sinA endConnections
    (m, core.2)

/-- A triangle of a trimesh collider ([u32; 3] in the source). -/
abbrev Tri := Nat × Nat × Nat

/-- generate_cuboid from wall_mesh.rs lines 429-467: appends the fixed
8-vertex / 12-triangle cuboid layout (top, left, right, back, front
faces; no bottom) spanning the given start and end points at full wall
height and thickness. -/
def generateCuboid (ext : ExtOracles) (acc : List V3 × List Tri)
    (start endP : V2) : List V3 × List Tri :=
  let lastIndex := acc.1.length
  let widthDisp := wallWidth ext (endP - start)
  let leftStart := start + widthDisp
  let rightStart := start - widthDisp
  let leftEnd := endP + widthDisp
  let rightEnd := endP - widthDisp
  (acc.1 ++
    [⟨leftStart.x, 0, leftStart.y⟩, ⟨rightStart.x, 0, rightStart.y⟩,
     ⟨rightEnd.x, 0, rightEnd.y⟩, ⟨leftEnd.x, 0, leftEnd.y⟩,
     ⟨leftStart.x, HEIGHT, leftStart.y⟩, ⟨rightStart.x, HEIGHT, rightStart.y⟩,
     ⟨rightEnd.x, HEIGHT, rightEnd.y⟩, ⟨leftEnd.x, HEIGHT, leftEnd.y⟩],
   acc.2 ++
    [(lastIndex + 5, lastIndex + 4, lastIndex + 6),
     (lastIndex + 4, lastIndex + 7, lastIndex + 6),
     (lastIndex + 3, lastIndex + 4, lastIndex),
     (lastIndex + 3, lastIndex + 7, lastIndex + 4),
     (lastIndex + 1, lastIndex + 5, lastIndex + 2),
     (lastIndex + 5, lastIndex + 6, lastIndex + 2),
     (lastIndex, lastIndex + 5, lastIndex + 1),
     (lastIndex, lastIndex + 4, lastIndex + 5),
     (lastIndex + 2, lastIndex + 6, lastIndex + 3),
     (lastIndex + 6, lastIndex + 7, lastIndex + 3)])

/-- The aperture walk of generate_collider (wall_mesh.rs lines 409-422):
one cuboid per gap before each filtered aperture, threading the running
start point.  The source unwraps cutout.first()/last() with a panic on an
empty cutout; the embedding returns none there. -/
def colliderLoop (ext : ExtOracles) (wallDir : V2) :
    List Aperture → V2 → List V3 × List Tri → Option (V2 × (List V3 × List Tri))
  | [], start, acc => some (start, acc)
  | a :: rest, start, acc =>
    match a.cutout.head?, a.cutout.getLast? with
    | some first, some last =>
      let endP := a.translation.xz + first.x * wallDir
      let acc := generateCuboid ext acc start endP
      let start := a.translation.xz + last.x * wallDir
      colliderLoop ext wallDir rest start acc
    | _, _ => none

/-- generate_collider from wall_mesh.rs lines 404-427: walks the
non-hole, non-placing apertures in order, emits one cuboid per gap plus
the final gap up to the wall end, and concatenates everything into one
trimesh (vertices and triangle triples). -/
def generateCollider (ext : ExtOracles) (wall : Segment)
    (apertures : List Aperture) : Option (List V3 × List Tri) :=
  let wallDir := V2.normalizeW ext.sqrtQ wall.displacement
  match colliderLoop ext wallDir
      (apertures.filter (fun a => !a.hole && !a.placingObject))
      wall.start ([], []) with
  | some (start, acc) => some (generateCuboid ext acc start wall.endp)
  | none => none

/-- Cap vertex contribution of an end as a function of the neighbor count
at that end: a free end gets a 4-vertex cap quad, exactly one neighbor
gets nothing, two or more neighbors get the single fan vertex. -/
def capVertsOfCount (n : Nat) : Nat :=
  if n = 0 then 4 else if n = 1 then 0 else 1

/-- Cap triangle contribution of an end as a function of the neighbor
count at that end: 2 triangles for a free-end cap quad, 0 for one
neighbor, 1 fan triangle for two or more. -/
def capTrisOfCount (n : Nat) : Nat :=
  if n = 0 then 2 else if n = 1 then 0 else 1

/-- Mesh buffer consistency: the attribute buffers agree in length and
every index is in range. -/
def MeshOk (m : WallMesh) : Prop :=
  m.uvs.length = m.positions.length ∧
  m.normals.length = m.positions.length ∧
  ∀ i ∈ m.indices, i < m.positions.length

/-- A trivial instantiation of the external collaborators, used to
evaluate the generators on concrete inputs. -/
def ext0 : ExtOracles :=
  ⟨fun _ => 0, fun _ => 0, fun _ _ => 0, fun _ => 0, fun _ => 0, 0, 0, fun _ _ => []⟩

/-- An ear-clipping stub that distinguishes the two candidate projections
of the vertex (0, 1, 2): it answers [0, 1, 2] when handed the XY
projection [(0, 1)] and [9] otherwise. -/
def earcutProbe : EarcutFn :=
  fun pts _ => if pts = [⟨0, 1⟩] then [0, 1, 2] else [9]

/-- A concrete square-root table valid on the inputs the concrete
offset-point evaluations need (1 maps to 1). -/
def sqOne : ℚ → ℚ := fun q => if q = 1 then 1 else 0

/-- External collaborators whose square root is sqOne. -/
def extOne : ExtOracles :=
  ⟨sqOne, fun _ => 0, fun _ _ => 0, fun _ => 0, fun _ => 0, 0, 0, fun _ _ => []⟩

/-- The collider scenario wall of length 10 from the spec. -/
def wallTen : Segment := ⟨⟨0, 0⟩, ⟨10, 0⟩⟩

/-- The collider scenario aperture: non-hole, non-placing, cutout of
width 2 placed at position 4 along the wall. -/
def apertureOne : Aperture :=
  ⟨[⟨-1, 0⟩, ⟨1, 0⟩, ⟨1, 2⟩, ⟨-1, 2⟩], ⟨4, 0, 0⟩, false, false⟩

/-- Component-wise description of V2 subtraction. -/
theorem V2.sub_def (a b : V2) : a - b = ⟨a.x - b.x, a.y - b.y⟩ := rfl

/-- Component-wise description of V2 addition. -/
theorem V2.add_def (a b : V2) : a + b = ⟨a.x + b.x, a.y + b.y⟩ := rfl

/-- Component-wise description of V2 negation. -/
theorem V2.neg_def (a : V2) : -a = ⟨-a.x, -a.y⟩ := rfl

/-- Component-wise description of vector-by-scalar multiplication. -/
theorem V2.mul_q_def (a : V2) (q : ℚ) : a * q = ⟨a.x * q, a.y * q⟩ := rfl

/-- Component-wise description of scalar-by-vector multiplication. -/
theorem V2.q_mul_def (q : ℚ) (a : V2) : q * a = ⟨q * a.x, q * a.y⟩ := rfl

/-- Characterization of Segment::contains: true exactly when the
absolute cross product is within the 0.1 tolerance and the dot product
lies within [0, squared-length]. -/
theorem Segment.contains_iff (s : Segment) (p : V2) :
    s.contains p = true ↔
      |s.displacement.perpDot (p - s.start)| ≤ 1/10 ∧
      0 ≤ s.displacement.dot (p - s.start) ∧
      s.displacement.dot (p - s.start) ≤ s.displacement.lengthSquared := by
  simp only [Segment.contains]
  split_ifs with h1 h2
  · simp only [Bool.false_eq_true, false_iff]
    exact fun h => absurd h.1 (not_le.mpr h1)
  · simp only [Bool.false_eq_true, false_iff]
    exact fun h => absurd h.2.1 (not_le.mpr h2)
  · simp only [decide_eq_true_eq]
    exact ⟨fun h => ⟨not_lt.mp h1, not_lt.mp h2, h⟩, fun h => h.2.2⟩

/-- Claim C1 counterexample: for the segment from (0,0) to (10,0) the
point (5, 0.05) is NOT contained, although the claim says it is: the
source compares the raw cross product (here 10 * 0.05 = 0.5) against the
0.1 tolerance, not the perpendicular distance. -/
theorem c1_contains_counterexample :
    Segment.contains ⟨⟨0, 0⟩, ⟨10, 0⟩⟩ ⟨5, 1/20⟩ = false := by
  rw [Bool.eq_false_iff, Ne, Segment.contains_iff]
  simp only [Segment.displacement, V2.sub_def, V2.perpDot, V2.dot, V2.lengthSquared]
  intro h
  have h1 := h.1
  have : ((10:ℚ) - 0) * (1/20 - 0) - (0 - 0) * (5 - 0) = 1/2 := by norm_num
  rw [this] at h1
  have := le_trans (le_abs_self _) h1
  norm_num at this

/-- Claim C1 (amended): contains(point) is true iff the absolute cross
product of the displacement with (point - start) is at most 0.1 (i.e.
perpendicular distance at most 0.1 divided by the segment length) and the
dot product lies within [0, squared-length]; hence for the segment from
(0,0) to (10,0) the points (5, 0.05), (5, 0.2) and (11, 0) are all not
contained while (5, 0.01) is. -/
theorem c1_contains_amended :
    (∀ s : Segment, ∀ p : V2,
      s.contains p = true ↔
        |s.displacement.perpDot (p - s.start)| ≤ 1/10 ∧
        0 ≤ s.displacement.dot (p - s.start) ∧
        s.displacement.dot (p - s.start) ≤ s.displacement.lengthSquared) ∧
    Segment.contains ⟨⟨0, 0⟩, ⟨10, 0⟩⟩ ⟨5, 1/20⟩ = false ∧
    Segment.contains ⟨⟨0, 0⟩, ⟨10, 0⟩⟩ ⟨5, 1/5⟩ = false ∧
    Segment.contains ⟨⟨0, 0⟩, ⟨10, 0⟩⟩ ⟨11, 0⟩ = false ∧
    Segment.contains ⟨⟨0, 0⟩, ⟨10, 0⟩⟩ ⟨5, 1/100⟩ = true := by
  refine ⟨Segment.contains_iff, ?_, ?_, ?_, ?_⟩
  · rw [Bool.eq_false_iff, Ne, Segment.contains_iff]
    simp only [Segment.displacement, V2.sub_def, V2.perpDot, V2.dot, V2.lengthSquared]
    intro h
    have h1 := h.1
    have : ((10:ℚ) - 0) * (1/20 - 0) - (0 - 0) * (5 - 0) = 1/2 := by norm_num
    rw [this] at h1
    have := le_trans (le_abs_self _) h1
    norm_num at this
  · rw [Bool.eq_false_iff, Ne, Segment.contains_iff]
    simp only [Segment.displacement, V2.sub_def, V2.perpDot, V2.dot, V2.lengthSquared]
    intro h
    have h1 := h.1
    have : ((10:ℚ) - 0) * (1/5 - 0) - (0 - 0) * (5 - 0) = 2 := by norm_num
    rw [this] at h1
    have := le_trans (le_abs_self _) h1
    norm_num at this
  · rw [Bool.eq_false_iff, Ne, Segment.contains_iff]
    simp only [Segment.displacement, V2.sub_def, V2.perpDot, V2.dot, V2.lengthSquared]
    intro h
    have h3 := h.2.2
    norm_num at h3
  · rw [Segment.contains_iff]
    simp only [Segment.displacement, V2.sub_def, V2.perpDot, V2.dot, V2.lengthSquared]
    refine ⟨?_, by norm_num, by norm_num⟩
    have : ((10:ℚ) - 0) * (1/100 - 0) - (0 - 0) * (5 - 0) = 1/10 := by norm_num
    rw [this, abs_of_nonneg (by norm_num)]

/-- Claim C10: a zero-length segment contains every point: the
displacement is the zero vector, so the perp-dot rejection never fires
and the dot-product checks degenerate to 0 within [0, 0]. -/
theorem c10_zero_segment_contains_all (p q : V2) :
    (Segment.splat p).contains q = true := by
  rw [Segment.contains_iff]
  simp [Segment.splat, Segment.displacement, V2.sub_def, V2.perpDot, V2.dot,
    V2.lengthSquared]

/-- Claim C10 witness: the zero-length segment at (3, 4) contains the
far-away point (100, -7). -/
theorem c10_zero_segment_witness :
    (Segment.splat ⟨3, 4⟩).contains ⟨100, -7⟩ = true :=
  c10_zero_segment_contains_all ⟨3, 4⟩ ⟨100, -7⟩

/-- swapWinding preserves the length of the index buffer. -/
theorem swapWinding_length : (l : List Nat) → (swapWinding l).length = l.length
  | [] => rfl
  | [_] => rfl
  | [_, _] => rfl
  | a :: b :: c :: rest => by
    simp only [swapWinding, List.length_cons]
    rw [swapWinding_length rest]

/-- swapWinding never introduces new indices. -/
theorem swapWinding_mem : (l : List Nat) → ∀ i, i ∈ swapWinding l → i ∈ l
  | [], i, h => by simp [swapWinding] at h
  | [x], i, h => by simpa [swapWinding] using h
  | [x, y], i, h => by simpa [swapWinding] using h
  | a :: b :: c :: rest, i, h => by
    have ih := swapWinding_mem rest i
    simp only [swapWinding, List.mem_cons] at h ⊢
    tauto

/-- Within every full chunk of three, swapWinding exchanges the first and
last entry and keeps the middle one. -/
theorem swapWinding_getElem : (l : List Nat) → (i : Nat) → 3*i+2 < l.length →
    (swapWinding l)[3*i]? = l[3*i+2]? ∧
    (swapWinding l)[3*i+1]? = l[3*i+1]? ∧
    (swapWinding l)[3*i+2]? = l[3*i]?
  | [], i, h => by simp at h
  | [x], i, h => by simp at h
  | [x, y], i, h => by simp at h
  | a :: b :: c :: rest, i+1, h => by
    have hlen : 3*i+2 < rest.length := by simp at h; omega
    obtain ⟨ih1, ih2, ih3⟩ := swapWinding_getElem rest i hlen
    refine ⟨?_, ?_, ?_⟩
    · simp only [swapWinding]
      rw [show 3*(i+1)+2 = 3*i+2+1+1+1 from by ring,
        show 3*(i+1) = 3*i+1+1+1 from by ring]
      simp only [List.getElem?_cons_succ]
      exact ih1
    · simp only [swapWinding]
      rw [show 3*(i+1)+1 = 3*i+1+1+1+1 from by ring]
      simp only [List.getElem?_cons_succ]
      exact ih2
    · simp only [swapWinding]
      rw [show 3*(i+1)+2 = 3*i+2+1+1+1 from by ring,
        show 3*(i+1) = 3*i+1+1+1 from by ring]
      simp only [List.getElem?_cons_succ]
      exact ih3
  | a :: b :: c :: rest, 0, _ => by
    simp [swapWinding]

/-- Claim C4 counterexample: triangulate does not run over the
XZ-projection.  With an ear-clipping stub that distinguishes the two
projections of the single vertex (0, 1, 2), the code's output differs
from the spec-worded XZ-projection variant. -/
theorem c4_triangulate_counterexample :
    Triangulator.triangulate earcutProbe ⟨[]⟩ [⟨0, 1, 2⟩] false ≠
      specTriangulateXZ earcutProbe ⟨[]⟩ [⟨0, 1, 2⟩] false := by
  have hne : ¬(([(⟨0, 2⟩ : V2)]) = [(⟨0, 1⟩ : V2)]) := by
    norm_num [V2.mk.injEq]
  intro h
  have h1 := congrArg Prod.fst h
  simp only [Triangulator.triangulate, specTriangulateXZ, earcutProbe,
    List.map, if_false, Bool.false_eq_true] at h1
  simp [hne] at h1

/-- Claim C4 (amended): triangulate runs ear-clipping over the
XY-projection of the point buffer (the third component of each [x, y, z]
vertex entry is dropped, x and y are kept) together with the registered
hole indices, which are cleared afterwards; it returns a flat index list
of the same length as the ear-clipping output, equal to it when
inverse_winding is unset, and with the first and last index of every full
triangle swapped when inverse_winding is set. -/
theorem c4_triangulate_amended (earcutF : EarcutFn) (t : Triangulator)
    (positions : List V3) (inv : Bool) :
    (Triangulator.triangulate earcutF t positions inv).2.holeIndices = [] ∧
    (Triangulator.triangulate earcutF t positions inv).1.length =
      (earcutF (positions.map (fun p => ⟨p.x, p.y⟩)) t.holeIndices).length ∧
    (inv = false → (Triangulator.triangulate earcutF t positions inv).1 =
      earcutF (positions.map (fun p => ⟨p.x, p.y⟩)) t.holeIndices) ∧
    (inv = true → ∀ i,
      3*i+2 < (earcutF (positions.map (fun p => ⟨p.x, p.y⟩)) t.holeIndices).length →
      ((Triangulator.triangulate earcutF t positions inv).1[3*i]? =
        (earcutF (positions.map (fun p => ⟨p.x, p.y⟩)) t.holeIndices)[3*i+2]? ∧
      (Triangulator.triangulate earcutF t positions inv).1[3*i+1]? =
        (earcutF (positions.map (fun p => ⟨p.x, p.y⟩)) t.holeIndices)[3*i+1]? ∧
      (Triangulator.triangulate earcutF t positions inv).1[3*i+2]? =
        (earcutF (positions.map (fun p => ⟨p.x, p.y⟩)) t.holeIndices)[3*i]?)) := by
  refine ⟨rfl, ?_, ?_, ?_⟩
  · cases inv
    · rfl
    · simp only [Triangulator.triangulate, if_true]
      exact swapWinding_length _
  · intro h
    subst h
    rfl
  · intro h
    subst h
    intro i hi
    simpa only [Triangulator.triangulate, if_true] using swapWinding_getElem _ i hi

/-- Claim C4 witness: with the probe ear-clipping stub on the single
vertex (0, 1, 2) and inverted winding, the first output index equals the
third ear-clipping index. -/
theorem c4_triangulate_witness :
    (Triangulator.triangulate earcutProbe ⟨[]⟩ [⟨0, 1, 2⟩] true).1[0]? =
      (earcutProbe ([(⟨0, 1, 2⟩ : V3)].map (fun p => ⟨p.x, p.y⟩)) [])[2]? :=
  ((c4_triangulate_amended earcutProbe ⟨[]⟩ [⟨0, 1, 2⟩] true).2.2.2 rfl 0
    (by simp [earcutProbe])).1

/-- Translation of a segment by a vector, component form. -/
theorem Segment.add_v_def (s : Segment) (v : V2) :
    s + v = ⟨s.start + v, s.endp + v⟩ := rfl

/-- Translation of a segment by the negated vector, component form. -/
theorem Segment.sub_v_def (s : Segment) (v : V2) :
    s - v = ⟨s.start - v, s.endp - v⟩ := rfl

/-- Claim C3: with a parallel neighbor (here the segment itself), the
wall_mesh.rs offset_points falls back to start + width for BOTH the left
and the right boundary point, while the base segment.rs offset_points
falls back to start + width on the left and start - width on the right;
the two disagree on the right point. -/
theorem c3_offset_fallback_divergence :
    offsetPointsWM extOne ⟨⟨0, 0⟩, ⟨1, 0⟩⟩
        (.OneElement ⟨⟨0, 0⟩, ⟨1, 0⟩⟩) ⟨0, 1/2⟩ = (⟨0, 1/2⟩, ⟨0, 1/2⟩) ∧
    Segment.offsetPoints sqOne ⟨⟨0, 0⟩, ⟨1, 0⟩⟩ ⟨0, 1/2⟩ (3/40)
        (.OneElement ⟨⟨0, 0⟩, ⟨1, 0⟩⟩) = (⟨0, 1/2⟩, ⟨0, -(1/2)⟩) ∧
    (⟨0, 1/2⟩ : V2) ≠ ⟨0, -(1/2)⟩ := by
  refine ⟨?_, ?_, ?_⟩
  · norm_num [offsetPointsWM, wallWidth, extOne, V2.normalizeW, V2.perp,
      V2.lengthSquared, V2.perpDot, sqOne, HALF_WIDTH, WIDTH,
      Segment.lineIntersection, Segment.displacement, Segment.inverse,
      Segment.add_v_def, Segment.sub_v_def, V2.sub_def, V2.add_def,
      V2.mul_q_def, V2.q_mul_def, Prod.ext_iff, V2.mk.injEq]
  · norm_num [Segment.offsetPoints, V2.normalizeW, V2.perp,
      V2.lengthSquared, V2.perpDot, sqOne,
      Segment.lineIntersection, Segment.displacement, Segment.inverse,
      Segment.add_v_def, Segment.sub_v_def, V2.sub_def, V2.add_def,
      V2.mul_q_def, V2.q_mul_def, Prod.ext_iff, V2.mk.injEq]
  · norm_num [V2.mk.injEq]

/-- Claim C5 counterexample: generate_collider has no zero-length guard;
for a zero-length wall with no apertures it still emits one cuboid of 8
vertices and 10 triangles (with degenerate coordinates), not an empty
shape. -/
theorem c5_collider_counterexample :
    ∃ out, generateCollider ext0 (Segment.splat ⟨0, 0⟩) [] = some out ∧
      out.1.length = 8 ∧ out.2.length = 10 := by
  simp only [generateCollider, List.filter, colliderLoop]
  exact ⟨_, rfl, by simp [generateCuboid], by simp [generateCuboid]⟩

/-- Claim C5 (amended): for a degenerate segment (start == end),
WallMesh::generate returns with all four buffers empty; generate_collider
however has no zero-length guard and still emits one cuboid (8 vertices,
10 triangles) for a zero-length wall without apertures. -/
theorem c5_degenerate_amended (ext : ExtOracles) (wall : Segment)
    (connections : WallConnections) (apertures : List Aperture) (t : TriState)
    (h : wall.start = wall.endp) :
    (WallMesh.generate ext wall connections apertures t).1.positions = [] ∧
    (WallMesh.generate ext wall connections apertures t).1.uvs = [] ∧
    (WallMesh.generate ext wall connections apertures t).1.normals = [] ∧
    (WallMesh.generate ext wall connections apertures t).1.indices = [] ∧
    (∃ out, generateCollider ext wall [] = some out ∧
      out.1.length = 8 ∧ out.2.length = 10) := by
  refine ⟨?_, ?_, ?_, ?_, ?_⟩ <;>
    first
    | (simp only [WallMesh.generate, if_pos h]; rfl)
    | (simp only [generateCollider, List.filter, colliderLoop]
       exact ⟨_, rfl, by simp [generateCuboid], by simp [generateCuboid]⟩)

/-- Claim C5 witness: the degenerate wall at (1, 2) produces empty mesh
buffers and a single degenerate collider cuboid. -/
theorem c5_degenerate_witness :
    (WallMesh.generate ext0 (Segment.splat ⟨1, 2⟩) ⟨[], []⟩ [] ⟨[], false⟩).1.positions = [] ∧
    (WallMesh.generate ext0 (Segment.splat ⟨1, 2⟩) ⟨[], []⟩ [] ⟨[], false⟩).1.uvs = [] ∧
    (WallMesh.generate ext0 (Segment.splat ⟨1, 2⟩) ⟨[], []⟩ [] ⟨[], false⟩).1.normals = [] ∧
    (WallMesh.generate ext0 (Segment.splat ⟨1, 2⟩) ⟨[], []⟩ [] ⟨[], false⟩).1.indices = [] ∧
    (∃ out, generateCollider ext0 (Segment.splat ⟨1, 2⟩) [] = some out ∧
      out.1.length = 8 ∧ out.2.length = 10) :=
  c5_degenerate_amended ext0 (Segment.splat ⟨1, 2⟩) ⟨[], []⟩ [] ⟨[], false⟩ rfl

/-- generate_cuboid appends exactly 8 vertices and 10 triangles. -/
theorem generateCuboid_lengths (ext : ExtOracles) (acc : List V3 × List Tri)
    (s e : V2) :
    (generateCuboid ext acc s e).1.length = acc.1.length + 8 ∧
    (generateCuboid ext acc s e).2.length = acc.2.length + 10 := by
  simp [generateCuboid]

/-- The aperture walk of generate_collider succeeds when every walked
aperture has a nonempty cutout, emitting one 8-vertex, 10-triangle cuboid
per aperture. -/
theorem colliderLoop_lengths (ext : ExtOracles) (dir : V2) :
    ∀ (aps : List Aperture) (start : V2) (acc : List V3 × List Tri),
    (∀ a ∈ aps, a.cutout ≠ []) →
    ∃ s' acc', colliderLoop ext dir aps start acc = some (s', acc') ∧
      acc'.1.length = acc.1.length + 8 * aps.length ∧
      acc'.2.length = acc.2.length + 10 * aps.length
  | [], start, acc, _ => ⟨start, acc, rfl, by simp, by simp⟩
  | a :: rest, start, acc, h => by
    have hne := h a (List.mem_cons_self a rest)
    obtain ⟨f, hf⟩ : ∃ f, a.cutout.head? = some f := by
      cases hc : a.cutout with
      | nil => exact absurd hc hne
      | cons x xs => exact ⟨x, by simp⟩
    obtain ⟨lst, hl⟩ : ∃ lst, a.cutout.getLast? = some lst := by
      cases hc : a.cutout with
      | nil => exact absurd hc hne
      | cons x xs => exact ⟨(x :: xs).getLast (by simp), List.getLast?_eq_getLast _ _⟩
    obtain ⟨s', acc', hrec, h1, h2⟩ := colliderLoop_lengths ext dir rest
      (a.translation.xz + lst.x * dir)
      (generateCuboid ext acc start (a.translation.xz + f.x * dir))
      (fun x hx => h x (List.mem_cons_of_mem _ hx))
    refine ⟨s', acc', ?_, ?_, ?_⟩
    · simp only [colliderLoop, hf, hl]
      exact hrec
    · rw [h1, (generateCuboid_lengths ext acc start _).1]
      simp only [List.length_cons]
      ring
    · rw [h2, (generateCuboid_lengths ext acc start _).2]
      simp only [List.length_cons]
      ring

/-- Claim C9 counterexample: in the spec scenario (wall of length 10, one
non-hole non-placing aperture) the collider has 2 cuboids but only 20
triangles in total, not the 24 that 12 triangles per cuboid would give:
each cuboid holds 10 triangles (5 faces, bottom omitted). -/
theorem c9_collider_counterexample :
    ∃ out, generateCollider ext0 wallTen [apertureOne] = some out ∧
      out.1.length = 16 ∧ out.2.length = 20 ∧ out.2.length ≠ 24 := by
  obtain ⟨s', acc', hrec, h1, h2⟩ := colliderLoop_lengths ext0
    (V2.normalizeW ext0.sqrtQ wallTen.displacement)
    ([apertureOne].filter (fun a => !a.hole && !a.placingObject))
    wallTen.start ([], []) (by simp [apertureOne])
  refine ⟨generateCuboid ext0 acc' s' wallTen.endp, ?_, ?_, ?_, ?_⟩
  · simp only [generateCollider]
    rw [hrec]
  · rw [(generateCuboid_lengths ext0 acc' s' wallTen.endp).1, h1]
    simp [apertureOne]
  · rw [(generateCuboid_lengths ext0 acc' s' wallTen.endp).2, h2]
    simp [apertureOne]
  · rw [(generateCuboid_lengths ext0 acc' s' wallTen.endp).2, h2]
    simp [apertureOne]

/-- Claim C9 (amended): for n apertures with hole == false and
placing_object == false (all with nonempty cutouts), generate_collider
emits exactly n+1 cuboids concatenated into one trimesh, each cuboid
contributing exactly 8 vertices and 10 triangles (top, left, right,
front, back faces; bottom omitted); in particular the wall of length 10
with one such aperture produces exactly 2 cuboids. -/
theorem c9_collider_segmentation (ext : ExtOracles) (wall : Segment)
    (apertures : List Aperture)
    (h : ∀ a ∈ apertures.filter (fun a => !a.hole && !a.placingObject),
      a.cutout ≠ []) :
    ∃ out, generateCollider ext wall apertures = some out ∧
      out.1.length =
        8 * ((apertures.filter (fun a => !a.hole && !a.placingObject)).length + 1) ∧
      out.2.length =
        10 * ((apertures.filter (fun a => !a.hole && !a.placingObject)).length + 1) := by
  obtain ⟨s', acc', hrec, h1, h2⟩ := colliderLoop_lengths ext
    (V2.normalizeW ext.sqrtQ wall.displacement)
    (apertures.filter (fun a => !a.hole && !a.placingObject))
    wall.start ([], []) h
  refine ⟨generateCuboid ext acc' s' wall.endp, ?_, ?_, ?_⟩
  · simp only [generateCollider]
    rw [hrec]
  · rw [(generateCuboid_lengths ext acc' s' wall.endp).1, h1]
    simp
    ring
  · rw [(generateCuboid_lengths ext acc' s' wall.endp).2, h2]
    simp
    ring

/-- Claim C9 witness: the length-10 wall with the single aperture
produces 2 cuboids: 16 vertices and 20 triangles. -/
theorem c9_collider_witness :
    ∃ out, generateCollider ext0 wallTen [apertureOne] = some out ∧
      out.1.length = 16 ∧ out.2.length = 20 := by
  obtain ⟨out, ho, h1, h2⟩ := c9_collider_segmentation ext0 wallTen [apertureOne]
    (by simp [apertureOne])
  refine ⟨out, ho, ?_, ?_⟩
  · rw [h1]; simp [apertureOne]
  · rw [h2]; simp [apertureOne]

/-- minmax_angles of an empty connection list is NoElements. -/
theorem minmaxAngles_nil (ext : ExtOracles) (disp : V2) (pk : PointKind) :
    minmaxAngles ext disp pk [] = .NoElements := rfl

/-- minmax_angles of a single connection is OneElement. -/
theorem minmaxAngles_single (ext : ExtOracles) (disp : V2) (pk : PointKind)
    (c : WallConnection) :
    minmaxAngles ext disp pk [c] = .OneElement (unifyConnection pk c) := rfl

/-- minmax_angles of two or more connections is always MinMax. -/
theorem minmaxAngles_two (ext : ExtOracles) (disp : V2) (pk : PointKind)
    (c1 c2 : WallConnection) (rest : List WallConnection) :
    ∃ a b, minmaxAngles ext disp pk (c1 :: c2 :: rest) = .MinMax a b :=
  ⟨_, _, rfl⟩

/-- generate_front appends 4 vertices. -/
theorem generateFront_positions_length (m : WallMesh) (sl sr d : V2) :
    (generateFront m sl sr d).positions.length = m.positions.length + 4 := by
  simp [generateFront]

/-- generate_front appends 6 indices (2 triangles). -/
theorem generateFront_indices_length (m : WallMesh) (sl sr d : V2) :
    (generateFront m sl sr d).indices.length = m.indices.length + 6 := by
  simp [generateFront]

/-- generate_back appends 4 vertices. -/
theorem generateBack_positions_length (m : WallMesh) (el er d : V2) :
    (generateBack m el er d).positions.length = m.positions.length + 4 := by
  simp [generateBack]

/-- generate_back appends 6 indices (2 triangles). -/
theorem generateBack_indices_length (m : WallMesh) (el er d : V2) :
    (generateBack m el er d).indices.length = m.indices.length + 6 := by
  simp [generateBack]

/-- generate_start_connection appends 1 vertex. -/
theorem generateStartConnection_positions_length (m : WallMesh) (s : Segment) :
    (generateStartConnection m s).positions.length = m.positions.length + 1 := by
  simp [generateStartConnection]

/-- generate_start_connection appends 3 indices (1 triangle). -/
theorem generateStartConnection_indices_length (m : WallMesh) (s : Segment) :
    (generateStartConnection m s).indices.length = m.indices.length + 3 := by
  simp [generateStartConnection]

/-- generate_end_connection appends 1 vertex. -/
theorem generateEndConnection_positions_length (m : WallMesh) (s : Segment)
    (cosA sinA : ℚ) :
    (generateEndConnection m s cosA sinA).positions.length = m.positions.length + 1 := by
  simp [generateEndConnection]

/-- generate_end_connection appends 3 indices (1 triangle). -/
theorem generateEndConnection_indices_length (m : WallMesh) (s : Segment)
    (cosA sinA : ℚ) :
    (generateEndConnection m s cosA sinA).indices.length = m.indices.length + 3 := by
  simp [generateEndConnection]

/-- Length effect of the start cap, by classification. -/
theorem applyStartCap_lengths (m : WallMesh) (wall : Segment) (sl sr d : V2)
    (mm : MinMaxResult Segment) :
    (applyStartCap m wall sl sr d mm).positions.length =
      m.positions.length + capVerts mm ∧
    (applyStartCap m wall sl sr d mm).indices.length =
      m.indices.length + 3 * capTris mm := by
  cases mm <;>
    simp [applyStartCap, capVerts, capTris, generateFront_positions_length,
      generateFront_indices_length, generateStartConnection_positions_length,
      generateStartConnection_indices_length]

/-- Length effect of the end cap, by classification. -/
theorem applyEndCap_lengths (m : WallMesh) (wall : Segment) (el er d : V2)
    (cosA sinA : ℚ) (mm : MinMaxResult Segment) :
    (applyEndCap m wall el er d cosA sinA mm).positions.length =
      m.positions.length + capVerts mm ∧
    (applyEndCap m wall el er d cosA sinA mm).indices.length =
      m.indices.length + 3 * capTris mm := by
  cases mm <;>
    simp [applyEndCap, capVerts, capTris, generateBack_positions_length,
      generateBack_indices_length, generateEndConnection_positions_length,
      generateEndConnection_indices_length]

/-- The cap vertex contribution only depends on the neighbor count. -/
theorem capVerts_minmaxAngles (ext : ExtOracles) (disp : V2) (pk : PointKind)
    (l : List WallConnection) :
    capVerts (minmaxAngles ext disp pk l) = capVertsOfCount l.length := by
  rcases l with _ | ⟨c1, _ | ⟨c2, r⟩⟩
  · rfl
  · rfl
  · obtain ⟨a, b, hab⟩ := minmaxAngles_two ext disp pk c1 c2 r
    rw [hab]
    simp only [capVerts, capVertsOfCount, List.length_cons]
    rw [if_neg (by omega), if_neg (by omega)]

/-- The cap triangle contribution only depends on the neighbor count. -/
theorem capTris_minmaxAngles (ext : ExtOracles) (disp : V2) (pk : PointKind)
    (l : List WallConnection) :
    capTris (minmaxAngles ext disp pk l) = capTrisOfCount l.length := by
  rcases l with _ | ⟨c1, _ | ⟨c2, r⟩⟩
  · rfl
  · rfl
  · obtain ⟨a, b, hab⟩ := minmaxAngles_two ext disp pk c1 c2 r
    rw [hab]
    simp only [capTris, capTrisOfCount, List.length_cons]
    rw [if_neg (by omega), if_neg (by omega)]

/-- Claim C7: end-cap emission branches on the neighbor classification at
each end: beyond the top and side geometry (generateCore), a free end (no
neighbors) contributes a 4-vertex, 2-triangle cap (so a free-standing
segment gains 8 vertices and 4 triangles for front plus back), an end
with exactly one neighbor contributes nothing, and an end with two or
more neighbors (3+ segments meeting) contributes exactly one fan triangle
with one extra vertex. -/
theorem c7_end_cap_branching (ext : ExtOracles) (wall : Segment)
    (connections : WallConnections) (apertures : List Aperture) (t : TriState)
    (h : wall.start ≠ wall.endp) :
    (WallMesh.generate ext wall connections apertures t).1.positions.length =
      (generateCore ext wall connections apertures t).1.positions.length +
      capVertsOfCount connections.start.length +
      capVertsOfCount connections.endp.length ∧
    (WallMesh.generate ext wall connections apertures t).1.indices.length =
      (generateCore ext wall connections apertures t).1.indices.length +
      3 * capTrisOfCount connections.start.length +
      3 * capTrisOfCount connections.endp.length := by
  simp only [WallMesh.generate, if_neg h]
  constructor
  · rw [(applyEndCap_lengths _ _ _ _ _ _ _ _).1, (applyStartCap_lengths _ _ _ _ _ _).1,
      capVerts_minmaxAngles, capVerts_minmaxAngles]
  · rw [(applyEndCap_lengths _ _ _ _ _ _ _ _).2, (applyStartCap_lengths _ _ _ _ _ _).2,
      capTris_minmaxAngles, capTris_minmaxAngles]

/-- Claim C7 witness: a free-standing unit wall gains exactly 8 cap
vertices and 4 cap triangles (12 index entries) beyond top and sides. -/
theorem c7_end_cap_witness :
    (WallMesh.generate ext0 ⟨⟨0, 0⟩, ⟨1, 0⟩⟩ ⟨[], []⟩ [] ⟨[], false⟩).1.positions.length =
      (generateCore ext0 ⟨⟨0, 0⟩, ⟨1, 0⟩⟩ ⟨[], []⟩ [] ⟨[], false⟩).1.positions.length + 8 ∧
    (WallMesh.generate ext0 ⟨⟨0, 0⟩, ⟨1, 0⟩⟩ ⟨[], []⟩ [] ⟨[], false⟩).1.indices.length =
      (generateCore ext0 ⟨⟨0, 0⟩, ⟨1, 0⟩⟩ ⟨[], []⟩ [] ⟨[], false⟩).1.indices.length + 12 := by
  have h := c7_end_cap_branching ext0 ⟨⟨0, 0⟩, ⟨1, 0⟩⟩ ⟨[], []⟩ [] ⟨[], false⟩
    (by intro hc; injection hc with h1 _; exact absurd h1 (by norm_num))
  simpa [capVertsOfCount, capTrisOfCount] using h

/-- One aperture-point push appends exactly one vertex, UV and normal
(whose values do not depend on the accumulated mesh) and no indices. -/
theorem generateAperturePoint_delta (seg : Segment) (a : Aperture) (nrm : V3)
    (w : V2) (cA sA : ℚ) (p : V2) :
    ∃ v u, ∀ m : WallMesh, generateAperturePoint seg a nrm w cA sA m p =
      ⟨m.positions ++ [v], m.uvs ++ [u], m.normals ++ [nrm], m.indices⟩ :=
  ⟨_, _, fun _ => rfl⟩

/-- Folding aperture points appends equal-length vertex/UV/normal blocks
and no indices. -/
theorem apertureFold_delta (seg : Segment) (a : Aperture) (nrm : V3) (w : V2)
    (cA sA : ℚ) :
    ∀ ps : List V2,
    ∃ vs us ns, (∀ m : WallMesh,
      ps.foldl (generateAperturePoint seg a nrm w cA sA) m =
        ⟨m.positions ++ vs, m.uvs ++ us, m.normals ++ ns, m.indices⟩) ∧
      us.length = vs.length ∧ ns.length = vs.length
  | [] => ⟨[], [], [], fun m => by simp, rfl, rfl⟩
  | p :: rest => by
    obtain ⟨v, u, hv⟩ := generateAperturePoint_delta seg a nrm w cA sA p
    obtain ⟨vs, us, ns, heq, l1, l2⟩ := apertureFold_delta seg a nrm w cA sA rest
    refine ⟨v :: vs, u :: us, nrm :: ns, fun m => ?_, by simp [l1], by simp [l2]⟩
    simp only [List.foldl_cons]
    rw [heq, hv]
    simp

/-- generate_apertures appends equal-length vertex/UV/normal blocks and
no indices. -/
theorem generateApertures_delta (seg : Segment) (a : Aperture) (nrm : V3)
    (w : V2) (cA sA : ℚ) :
    ∃ vs us ns, (∀ m : WallMesh,
      generateApertures m seg a nrm w cA sA =
        ⟨m.positions ++ vs, m.uvs ++ us, m.normals ++ ns, m.indices⟩) ∧
      us.length = vs.length ∧ ns.length = vs.length :=
  apertureFold_delta seg a nrm w cA sA a.cutout

/-- The non-hole aperture fold of generate_side appends equal-length
attribute blocks and no indices. -/
theorem sideApertureFold_delta (seg : Segment) (nrm : V3) (w : V2) (cA sA : ℚ) :
    ∀ aps : List Aperture,
    ∃ vs us ns, (∀ m : WallMesh,
      aps.foldl (sideApertureStep seg nrm w cA sA) m =
        ⟨m.positions ++ vs, m.uvs ++ us, m.normals ++ ns, m.indices⟩) ∧
      us.length = vs.length ∧ ns.length = vs.length
  | [] => ⟨[], [], [], fun m => by simp, rfl, rfl⟩
  | a :: rest => by
    obtain ⟨vs1, us1, ns1, h1, l1a, l1b⟩ := generateApertures_delta seg a nrm w cA sA
    obtain ⟨vs, us, ns, heq, l1, l2⟩ := sideApertureFold_delta seg nrm w cA sA rest
    refine ⟨vs1 ++ vs, us1 ++ us, ns1 ++ ns, fun m => ?_,
      by simp [l1a, l1], by simp [l1b, l2]⟩
    simp only [List.foldl_cons, sideApertureStep]
    rw [heq, h1]
    simp

/-- The hole-aperture fold of generate_side appends equal-length
attribute blocks and no indices to the mesh component. -/
theorem holeFold_delta (seg : Segment) (nrm : V3) (w : V2) (cA sA : ℚ) :
    ∀ aps : List Aperture,
    ∃ vs us ns, (∀ acc : WallMesh × TriState × Nat,
      (aps.foldl (holeStep seg nrm w cA sA) acc).1 =
        ⟨acc.1.positions ++ vs, acc.1.uvs ++ us, acc.1.normals ++ ns, acc.1.indices⟩) ∧
      us.length = vs.length ∧ ns.length = vs.length
  | [] => ⟨[], [], [], fun acc => by simp, rfl, rfl⟩
  | a :: rest => by
    obtain ⟨vs1, us1, ns1, h1, l1a, l1b⟩ := generateApertures_delta seg a nrm w cA sA
    obtain ⟨vs, us, ns, heq, l1, l2⟩ := holeFold_delta seg nrm w cA sA rest
    refine ⟨vs1 ++ vs, us1 ++ us, ns1 ++ ns, fun acc => ?_,
      by simp [l1a, l1], by simp [l1b, l2]⟩
    simp only [List.foldl_cons]
    rw [heq]
    simp only [holeStep]
    rw [h1]
    simp

/-- Every index produced by the stateful triangulate is within the
projected point buffer, provided the ear-clipping routine respects its
range contract. -/
theorem triangulate_mem_lt (earcutF : EarcutFn)
    (hE : ∀ pts hs, ∀ i ∈ earcutF pts hs, i < pts.length)
    (st : TriState) (positions : List V3) :
    ∀ j ∈ (TriState.triangulate earcutF st positions).1, j < positions.length := by
  intro j hj
  simp only [TriState.triangulate] at hj
  by_cases hw : st.inverseWinding = true
  · rw [if_pos hw] at hj
    have hmem := swapWinding_mem _ j hj
    have := hE _ _ j hmem
    simpa using this
  · rw [if_neg hw] at hj
    have := hE _ _ j hj
    simpa using this

/-- Characterization of generate_side: it appends the same number n >= 4
of entries to the positions, UV and normal buffers, and appends only
indices that stay below the final vertex count whenever the ear-clipping
routine respects its range contract. -/
theorem generateSide_char (ext : ExtOracles) (m : WallMesh) (t : TriState)
    (seg : Segment) (aps : List Aperture) (ss es w : V2) (cA sA : ℚ) :
    ∃ (n : Nat) (idx : List Nat),
      (generateSide ext m t seg aps ss es w cA sA).1.positions.length =
        m.positions.length + n ∧
      (generateSide ext m t seg aps ss es w cA sA).1.uvs.length =
        m.uvs.length + n ∧
      (generateSide ext m t seg aps ss es w cA sA).1.normals.length =
        m.normals.length + n ∧
      4 ≤ n ∧
      (generateSide ext m t seg aps ss es w cA sA).1.indices = m.indices ++ idx ∧
      ((∀ pts hs, ∀ i ∈ ext.earcutF pts hs, i < pts.length) →
        ∀ i ∈ idx,
          i < (generateSide ext m t seg aps ss es w cA sA).1.positions.length) := by
  obtain ⟨vsA, usA, nsA, hA, lA1, lA2⟩ :=
    sideApertureFold_delta seg ⟨w.x, 0, w.y⟩ w cA sA (aps.filter (fun a => !a.hole))
  obtain ⟨vsH, usH, nsH, hH, lH1, lH2⟩ :=
    holeFold_delta seg ⟨w.x, 0, w.y⟩ w cA sA (aps.filter (fun a => a.hole))
  simp only [generateSide, pushAttrs, hA, hH]
  refine ⟨4 + vsA.length + vsH.length, _, ?_, ?_, ?_, by omega, rfl, ?_⟩
  · simp only [List.length_append, List.length_cons, List.length_nil]
    omega
  · simp only [List.length_append, List.length_cons, List.length_nil, lA1, lH1]
    omega
  · simp only [List.length_append, List.length_cons, List.length_nil, lA2, lH2]
    omega
  · intro hE i hi
    simp only [List.mem_map] at hi
    obtain ⟨j, hj, rfl⟩ := hi
    have hb := triangulate_mem_lt ext.earcutF hE _ _ j hj
    rw [List.length_drop] at hb
    simp only [List.length_append, List.length_cons, List.length_nil] at hb ⊢
    omega

/-- The cleared mesh is consistent. -/
theorem meshOk_empty : MeshOk WallMesh.empty :=
  ⟨rfl, rfl, by intro i hi; simp [WallMesh.empty] at hi⟩

/-- generate_top appends 4 entries to each attribute buffer. -/
theorem generateTop_positions_length (m : WallMesh) (seg : Segment)
    (sl sr el er : V2) (cA sA : ℚ) :
    (generateTop m seg sl sr el er cA sA).positions.length = m.positions.length + 4 := by
  simp [generateTop]

/-- The top cap preserves mesh consistency: its literal indices 0..3 are
covered by the four vertices it appends. -/
theorem meshOk_generateTop (m : WallMesh) (seg : Segment) (sl sr el er : V2)
    (cA sA : ℚ) (hm : MeshOk m) :
    MeshOk (generateTop m seg sl sr el er cA sA) := by
  obtain ⟨e1, e2, e3⟩ := hm
  refine ⟨by simp [generateTop, e1], by simp [generateTop, e2], ?_⟩
  intro i hi
  simp only [generateTop, List.mem_append, List.mem_cons, List.not_mem_nil,
    or_false] at hi
  simp only [generateTop, List.length_append, List.length_cons, List.length_nil]
  rcases hi with hi | hi
  · exact lt_of_lt_of_le (e3 i hi) (by omega)
  · rcases hi with rfl | rfl | rfl | rfl | rfl | rfl <;> omega

/-- generate_side preserves mesh consistency (given the ear-clipping
range contract) and appends at least 4 vertices. -/
theorem generateSide_meshOk (ext : ExtOracles) (m : WallMesh) (t : TriState)
    (seg : Segment) (aps : List Aperture) (ss es w : V2) (cA sA : ℚ)
    (hE : ∀ pts hs, ∀ i ∈ ext.earcutF pts hs, i < pts.length)
    (hm : MeshOk m) :
    MeshOk (generateSide ext m t seg aps ss es w cA sA).1 ∧
    m.positions.length + 4 ≤
      (generateSide ext m t seg aps ss es w cA sA).1.positions.length := by
  obtain ⟨n, idx, h1, h2, h3, h4, h5, h6⟩ :=
    generateSide_char ext m t seg aps ss es w cA sA
  obtain ⟨e1, e2, e3⟩ := hm
  refine ⟨⟨by omega, by omega, ?_⟩, by omega⟩
  intro i hi
  rw [h5] at hi
  rcases List.mem_append.mp hi with hi | hi
  · exact lt_of_lt_of_le (e3 i hi) (by omega)
  · exact h6 hE i hi

/-- The start cap preserves mesh consistency when the mesh already has at
least 2 vertices (the fan triangle references vertex indices 0 and 1 of
the top cap). -/
theorem applyStartCap_meshOk (m : WallMesh) (wall : Segment) (sl sr d : V2)
    (mm : MinMaxResult Segment) (hm : MeshOk m)
    (h2v : 2 ≤ m.positions.length) :
    MeshOk (applyStartCap m wall sl sr d mm) := by
  obtain ⟨e1, e2, e3⟩ := hm
  cases mm with
  | OneElement s => exact ⟨e1, e2, e3⟩
  | NoElements =>
    refine ⟨by simp [applyStartCap, generateFront, e1],
      by simp [applyStartCap, generateFront, e2], ?_⟩
    intro i hi
    simp only [applyStartCap, generateFront, List.mem_append, List.mem_cons,
      List.not_mem_nil, or_false] at hi
    simp only [applyStartCap, generateFront, List.length_append,
      List.length_cons, List.length_nil]
    rcases hi with hi | hi
    · exact lt_of_lt_of_le (e3 i hi) (by omega)
    · rcases hi with rfl | rfl | rfl | rfl | rfl | rfl <;> omega
  | MinMax a b =>
    refine ⟨by simp [applyStartCap, generateStartConnection, e1],
      by simp [applyStartCap, generateStartConnection, e2], ?_⟩
    intro i hi
    simp only [applyStartCap, generateStartConnection, List.mem_append,
      List.mem_cons, List.not_mem_nil, or_false] at hi
    simp only [applyStartCap, generateStartConnection, List.length_append,
      List.length_cons, List.length_nil]
    rcases hi with hi | hi
    · exact lt_of_lt_of_le (e3 i hi) (by omega)
    · rcases hi with rfl | rfl | rfl <;> omega

/-- The end cap preserves mesh consistency when the mesh already has at
least 4 vertices (the fan triangle references vertex indices 2 and 3 of
the top cap). -/
theorem applyEndCap_meshOk (m : WallMesh) (wall : Segment) (el er d : V2)
    (cA sA : ℚ) (mm : MinMaxResult Segment) (hm : MeshOk m)
    (h4v : 4 ≤ m.positions.length) :
    MeshOk (applyEndCap m wall el er d cA sA mm) := by
  obtain ⟨e1, e2, e3⟩ := hm
  cases mm with
  | OneElement s => exact ⟨e1, e2, e3⟩
  | NoElements =>
    refine ⟨by simp [applyEndCap, generateBack, e1],
      by simp [applyEndCap, generateBack, e2], ?_⟩
    intro i hi
    simp only [applyEndCap, generateBack, List.mem_append, List.mem_cons,
      List.not_mem_nil, or_false] at hi
    simp only [applyEndCap, generateBack, List.length_append,
      List.length_cons, List.length_nil]
    rcases hi with hi | hi
    · exact lt_of_lt_of_le (e3 i hi) (by omega)
    · rcases hi with rfl | rfl | rfl | rfl | rfl | rfl <;> omega
  | MinMax a b =>
    refine ⟨by simp [applyEndCap, generateEndConnection, e1],
      by simp [applyEndCap, generateEndConnection, e2], ?_⟩
    intro i hi
    simp only [applyEndCap, generateEndConnection, List.mem_append,
      List.mem_cons, List.not_mem_nil, or_false] at hi
    simp only [applyEndCap, generateEndConnection, List.length_append,
      List.length_cons, List.length_nil]
    rcases hi with hi | hi
    · exact lt_of_lt_of_le (e3 i hi) (by omega)
    · rcases hi with rfl | rfl | rfl <;> omega

/-- The top-and-sides core is consistent and has at least 4 vertices. -/
theorem generateCore_meshOk (ext : ExtOracles) (wall : Segment)
    (connections : WallConnections) (apertures : List Aperture) (t : TriState)
    (hE : ∀ pts hs, ∀ i ∈ ext.earcutF pts hs, i < pts.length) :
    MeshOk (generateCore ext wall connections apertures t).1 ∧
    4 ≤ (generateCore ext wall connections apertures t).1.positions.length := by
  simp only [generateCore]
  obtain ⟨h1ok, h1len⟩ := generateSide_meshOk ext _ _ _ _ _ _ _ _ _ hE
    (meshOk_generateTop _ _ _ _ _ _ _ _ meshOk_empty)
  obtain ⟨h2ok, h2len⟩ := generateSide_meshOk ext _ _ _ _ _ _ _ _ _ hE h1ok
  exact ⟨h2ok, by omega⟩

/-- Claim C8: after every WallMesh::generate call the three attribute
buffers have equal lengths and every index is strictly below the vertex
count, for every wall, connection set, aperture list and triangulator
state, provided the external ear-clipping routine returns indices within
its input point buffer. -/
theorem c8_mesh_buffer_consistency (ext : ExtOracles) (wall : Segment)
    (connections : WallConnections) (apertures : List Aperture) (t : TriState)
    (hE : ∀ pts hs, ∀ i ∈ ext.earcutF pts hs, i < pts.length) :
    MeshOk (WallMesh.generate ext wall connections apertures t).1 := by
  by_cases h : wall.start = wall.endp
  · simp only [WallMesh.generate, if_pos h]
    exact meshOk_empty
  · simp only [WallMesh.generate, if_neg h]
    obtain ⟨hcok, hc4⟩ := generateCore_meshOk ext wall connections apertures t hE
    refine applyEndCap_meshOk _ _ _ _ _ _ _ _ ?_ ?_
    · exact applyStartCap_meshOk _ _ _ _ _ _ hcok (by omega)
    · rw [(applyStartCap_lengths _ _ _ _ _ _).1]
      omega

/-- Claim C8 witness: with the trivial external collaborators (whose
ear-clipping routine returns no indices) a concrete free-standing wall
generates consistent buffers. -/
theorem c8_mesh_buffer_witness :
    MeshOk (WallMesh.generate ext0 ⟨⟨0, 0⟩, ⟨2, 0⟩⟩ ⟨[], []⟩ [] ⟨[], false⟩).1 :=
  c8_mesh_buffer_consistency ext0 ⟨⟨0, 0⟩, ⟨2, 0⟩⟩ ⟨[], []⟩ [] ⟨[], false⟩
    (by intro pts hs i hi; simp [ext0] at hi)

/-- Membership in a pushed connection list. -/
theorem SegmentConnections.mem_push (c : SegmentConnections) (k k' : PointKind)
    (rec r : SegmentConnection) :
    r ∈ (c.push k' rec).get k ↔ r ∈ c.get k ∨ (k = k' ∧ r = rec) := by
  cases k <;> cases k' <;>
    simp [SegmentConnections.push, SegmentConnections.get]

/-- Reference count of a pushed connection list. -/
theorem SegmentConnections.refCount_push (c : SegmentConnections) (k : PointKind)
    (rec : SegmentConnection) (b : Entity) :
    (c.push k rec).refCount b =
      c.refCount b + (if rec.entity = b then 1 else 0) := by
  cases k <;>
    simp [SegmentConnections.push, SegmentConnections.refCount,
      List.countP_append, List.countP_cons] <;>
    split_ifs <;> omega

/-- The reference count is zero exactly when no record references the
entity. -/
theorem SegmentConnections.refCount_eq_zero (c : SegmentConnections) (b : Entity) :
    c.refCount b = 0 ↔ ∀ k r, r ∈ c.get k → r.entity ≠ b := by
  simp only [SegmentConnections.refCount, Nat.add_eq_zero, List.countP_eq_zero]
  constructor
  · rintro ⟨h1, h2⟩ k r hr
    cases k
    · simpa using h1 r hr
    · simpa using h2 r hr
  · intro h
    exact ⟨fun r hr => by simpa using h .Start r hr,
      fun r hr => by simpa using h .End r hr⟩

/-- A member referencing the entity forces a positive reference count. -/
theorem SegmentConnections.refCount_pos (c : SegmentConnections) (k : PointKind)
    (r : SegmentConnection) (hr : r ∈ c.get k) :
    1 ≤ c.refCount r.entity := by
  by_contra h
  exact (SegmentConnections.refCount_eq_zero c r.entity).mp (by omega) k r hr rfl

/-- removeRef returns none exactly when no record references the
entity. -/
theorem removeRef_none : ∀ (l : List SegmentConnection) (e : Entity),
    removeRef l e = none ↔ ∀ c ∈ l, c.entity ≠ e
  | [], e => by simp [removeRef]
  | c :: rest, e => by
    simp only [removeRef]
    by_cases h : c.entity = e
    · simp [h]
    · simp [h, removeRef_none rest e]

/-- Effect of a successful removeRef on counts and memberships: one
record referencing the entity disappears, all counts toward other
entities are untouched, and all surviving records were present before. -/
theorem removeRef_some : ∀ (l : List SegmentConnection) (e : Entity)
    (l' : List SegmentConnection), removeRef l e = some l' →
    l.countP (fun r => r.entity = e) = l'.countP (fun r => r.entity = e) + 1 ∧
    (∀ b, b ≠ e → l'.countP (fun r => r.entity = b) =
      l.countP (fun r => r.entity = b)) ∧
    (∀ c ∈ l', c ∈ l) ∧ (∀ c ∈ l, c.entity ≠ e → c ∈ l')
  | [], e, l', h => by simp [removeRef] at h
  | c :: rest, e, l', h => by
    simp only [removeRef] at h
    by_cases hc : c.entity = e
    · rw [if_pos hc] at h
      injection h with h
      subst h
      refine ⟨by simp [List.countP_cons, hc], ?_, ?_, ?_⟩
      · intro b hb
        have hne : ¬(e = b) := fun h => hb h.symm
        simp [List.countP_cons, hc, hne]
      · intro x hx
        exact List.mem_cons_of_mem _ hx
      · intro x hx hxe
        rcases List.mem_cons.mp hx with rfl | hx
        · exact absurd hc hxe
        · exact hx
    · rw [if_neg hc] at h
      cases hr : removeRef rest e with
      | none =>
        rw [hr] at h
        exact Option.noConfusion h
      | some rest' =>
        rw [hr] at h
        have h := Option.some.inj h
        subst h
        obtain ⟨h1, h2, h3, h4⟩ := removeRef_some rest e rest' hr
        refine ⟨?_, ?_, ?_, ?_⟩
        · simp [List.countP_cons, hc, h1]
        · intro b hb
          simp [List.countP_cons, h2 b hb]
        · intro x hx
          rcases List.mem_cons.mp hx with rfl | hx
          · exact List.mem_cons_self _ _
          · exact List.mem_cons_of_mem _ (h3 x hx)
        · intro x hx hxe
          rcases List.mem_cons.mp hx with rfl | hx
          · exact List.mem_cons_self _ _
          · exact List.mem_cons_of_mem _ (h4 x hx hxe)

/-- Records surviving removeBackRef were present before, in the same
list. -/
theorem removeBackRef_mem (c : SegmentConnections) (e : Entity) (k : PointKind)
    (r : SegmentConnection) (hr : r ∈ (c.removeBackRef e).get k) : r ∈ c.get k := by
  unfold SegmentConnections.removeBackRef at hr
  cases h1 : removeRef c.start e with
  | some l =>
    rw [h1] at hr
    obtain ⟨-, -, h3, -⟩ := removeRef_some c.start e l h1
    cases k
    · exact h3 r hr
    · exact hr
  | none =>
    rw [h1] at hr
    cases h2 : removeRef c.endp e with
    | some l =>
      rw [h2] at hr
      obtain ⟨-, -, h3, -⟩ := removeRef_some c.endp e l h2
      cases k
      · exact hr
      · exact h3 r hr
    | none =>
      rw [h2] at hr
      exact hr

/-- Records not referencing the removed entity survive removeBackRef in
their list. -/
theorem removeBackRef_mem_of (c : SegmentConnections) (e : Entity) (k : PointKind)
    (r : SegmentConnection) (hr : r ∈ c.get k) (hne : r.entity ≠ e) :
    r ∈ (c.removeBackRef e).get k := by
  unfold SegmentConnections.removeBackRef
  cases h1 : removeRef c.start e with
  | some l =>
    obtain ⟨-, -, -, h4⟩ := removeRef_some c.start e l h1
    cases k
    · exact h4 r hr hne
    · exact hr
  | none =>
    cases h2 : removeRef c.endp e with
    | some l =>
      obtain ⟨-, -, -, h4⟩ := removeRef_some c.endp e l h2
      cases k
      · exact hr
      · exact h4 r hr hne
    | none =>
      exact hr

/-- removeBackRef does not change reference counts toward other
entities. -/
theorem removeBackRef_refCount_ne (c : SegmentConnections) (e b : Entity)
    (hb : b ≠ e) : (c.removeBackRef e).refCount b = c.refCount b := by
  unfold SegmentConnections.removeBackRef
  cases h1 : removeRef c.start e with
  | some l =>
    obtain ⟨-, h2, -, -⟩ := removeRef_some c.start e l h1
    simp [SegmentConnections.refCount, h2 b hb]
  | none =>
    cases h2 : removeRef c.endp e with
    | some l =>
      obtain ⟨-, h3, -, -⟩ := removeRef_some c.endp e l h2
      simp [SegmentConnections.refCount, h3 b hb]
    | none => rfl

/-- When the component references the removed entity exactly once,
removeBackRef leaves no reference to it. -/
theorem removeBackRef_refCount_self (c : SegmentConnections) (e : Entity)
    (h : c.refCount e = 1) : (c.removeBackRef e).refCount e = 0 := by
  unfold SegmentConnections.removeBackRef
  unfold SegmentConnections.refCount at h
  cases h1 : removeRef c.start e with
  | some l =>
    obtain ⟨h2, -, -, -⟩ := removeRef_some c.start e l h1
    simp only [SegmentConnections.refCount]
    omega
  | none =>
    have hz : c.start.countP (fun r => r.entity = e) = 0 :=
      List.countP_eq_zero.mpr (by
        intro a ha
        simpa using (removeRef_none c.start e).mp h1 a ha)
    cases h2 : removeRef c.endp e with
    | some l =>
      obtain ⟨h3, -, -, -⟩ := removeRef_some c.endp e l h2
      simp only [SegmentConnections.refCount]
      omega
    | none =>
      have hz2 : c.endp.countP (fun r => r.entity = e) = 0 :=
        List.countP_eq_zero.mpr (by
          intro a ha
          simpa using (removeRef_none c.endp e).mp h2 a ha)
      omega

/-- Under the symmetry invariant, any entity references any other at most
once (a segment connects to at most one point of another segment). -/
theorem connSym_refCount_le_one (w : ConnWorld) (hs : ConnSymmetric w)
    (a x : Entity) : (w a).refCount x ≤ 1 := by
  by_cases hpos : (w a).refCount x = 0
  · omega
  · have hex : ∃ k r, r ∈ (w a).get k ∧ r.entity = x := by
      by_contra hno
      push_neg at hno
      exact hpos ((SegmentConnections.refCount_eq_zero _ _).mpr
        (fun k r hr => hno k r hr))
    obtain ⟨k, r, hr, hrx⟩ := hex
    obtain ⟨-, -, r', hr', hr'e, -⟩ := hs a k r hr
    obtain ⟨-, hcnt2, -⟩ := hs r.entity r.kind r' hr'
    rw [hr'e, hrx] at hcnt2
    omega

/-- A list whose per-entity record counts are at most one has pairwise
distinct record entities. -/
theorem countP_le_one_pairwise : ∀ (l : List SegmentConnection),
    (∀ x, l.countP (fun r => r.entity = x) ≤ 1) →
    l.Pairwise (fun a b => a.entity ≠ b.entity)
  | [], _ => List.Pairwise.nil
  | c :: rest, h => by
    refine List.Pairwise.cons ?_ (countP_le_one_pairwise rest ?_)
    · intro b hb heq
      have hcount : 0 < rest.countP (fun r => r.entity = c.entity) :=
        List.countP_pos_iff.mpr ⟨b, hb, by simp [heq]⟩
      have h1 := h c.entity
      rw [List.countP_cons_of_pos _ _ (by simp)] at h1
      omega
    · intro x
      have hx := h x
      rw [List.countP_cons] at hx
      exact le_trans (Nat.le_add_right _ _) hx

/-- Characterization of the teardown fold: with pairwise-distinct record
entities, each referenced neighbor has its back-reference removed once
and every other entity is untouched. -/
theorem disconnectFold_char (e : Entity) : ∀ (L : List SegmentConnection)
    (w0 : ConnWorld) (x : Entity),
    L.Pairwise (fun a b => a.entity ≠ b.entity) →
    (L.foldl (disconnectStep e) w0) x =
      if ∃ c ∈ L, c.entity = x then (w0 x).removeBackRef e else w0 x
  | [], w0, x, _ => by simp
  | c :: rest, w0, x, hp => by
    obtain ⟨hhead, htail⟩ := List.pairwise_cons.mp hp
    simp only [List.foldl_cons]
    rw [disconnectFold_char e rest (disconnectStep e w0 c) x htail]
    by_cases hcx : c.entity = x
    · have hnr : ¬ ∃ c' ∈ rest, c'.entity = x := by
        rintro ⟨c', hc', hcx'⟩
        exact hhead c' hc' (by rw [hcx, hcx'])
      rw [if_neg hnr, if_pos ⟨c, List.mem_cons_self c rest, hcx⟩]
      subst hcx
      simp [disconnectStep, Function.update_same]
    · have hiff : (∃ c' ∈ c :: rest, c'.entity = x) ↔ (∃ c' ∈ rest, c'.entity = x) := by
        constructor
        · rintro ⟨c', hc', h⟩
          rcases List.mem_cons.mp hc' with rfl | hmem
          · exact absurd h hcx
          · exact ⟨c', hmem, h⟩
        · rintro ⟨c', h1, h2⟩
          exact ⟨c', List.mem_cons_of_mem _ h1, h2⟩
      have hupd : disconnectStep e w0 c x = w0 x :=
        Function.update_noteq (fun h => hcx (h.symm)) _ _
      simp only [hiff]
      by_cases hr : ∃ c' ∈ rest, c'.entity = x
      · rw [if_pos hr, if_pos hr, hupd]
      · rw [if_neg hr, if_neg hr, hupd]

/-- Characterization of disconnect_all: the disconnected entity keeps an
empty component, each entity referenced by its old records gets one
back-reference removed, and every other entity keeps its component. -/
theorem disconnectAll_char (w : ConnWorld) (e : Entity)
    (hdist : ((w e).start ++ (w e).endp).Pairwise (fun a b => a.entity ≠ b.entity)) :
    (disconnectAll w e) e = SegmentConnections.empty ∧
    ∀ x, x ≠ e →
      (disconnectAll w e) x =
        if ∃ c ∈ (w e).start ++ (w e).endp, c.entity = x
        then (w x).removeBackRef e else w x := by
  unfold disconnectAll
  constructor
  · rw [disconnectFold_char e _ _ e hdist]
    by_cases hx : ∃ c ∈ (w e).start ++ (w e).endp, c.entity = e
    · rw [if_pos hx, Function.update_same]
      rfl
    · rw [if_neg hx, Function.update_same]
  · intro x hx
    rw [disconnectFold_char e _ _ x hdist]
    by_cases hex : ∃ c ∈ (w e).start ++ (w e).endp, c.entity = x
    · rw [if_pos hex, if_pos hex, Function.update_noteq hx]
    · rw [if_neg hex, if_neg hex]
      exact Function.update_noteq hx _ _

/-- After disconnect_all: the torn-down entity is empty, every other
entity either lost exactly its back-reference or was untouched, and no
entity references the torn-down one any more. -/
theorem disconnectAll_cases (w : ConnWorld) (e : Entity) (hs : ConnSymmetric w) :
    ((disconnectAll w e) e = SegmentConnections.empty) ∧
    (∀ x, x ≠ e → ((disconnectAll w e) x = (w x).removeBackRef e ∨
      (disconnectAll w e) x = w x)) ∧
    (∀ x, ((disconnectAll w e) x).refCount e = 0) := by
  have hle := connSym_refCount_le_one w hs
  have hpair : ((w e).start ++ (w e).endp).Pairwise
      (fun a b => a.entity ≠ b.entity) := by
    apply countP_le_one_pairwise
    intro x
    have := hle e x
    simpa [SegmentConnections.refCount, List.countP_append] using this
  obtain ⟨hempty, hchar⟩ := disconnectAll_char w e hpair
  refine ⟨hempty, ?_, ?_⟩
  · intro x hx
    rw [hchar x hx]
    by_cases hex : ∃ c ∈ (w e).start ++ (w e).endp, c.entity = x
    · rw [if_pos hex]
      exact Or.inl rfl
    · rw [if_neg hex]
      exact Or.inr rfl
  · intro x
    by_cases hx : x = e
    · subst hx
      rw [hempty]
      rfl
    · rw [hchar x hx]
      by_cases hex : ∃ c ∈ (w e).start ++ (w e).endp, c.entity = x
      · rw [if_pos hex]
        obtain ⟨c, hc, hcx⟩ := hex
        have hck : ∃ k, c ∈ (w e).get k := by
          rcases List.mem_append.mp hc with h | h
          exacts [⟨.Start, h⟩, ⟨.End, h⟩]
        obtain ⟨k, hck⟩ := hck
        obtain ⟨-, hcnt, -⟩ := hs e k c hck
        rw [hcx] at hcnt
        exact removeBackRef_refCount_self _ _ hcnt
      · rw [if_neg hex]
        rw [SegmentConnections.refCount_eq_zero]
        intro k r hr hre
        obtain ⟨-, -, r', hr', hr'e, -⟩ := hs x k r hr
        apply hex
        refine ⟨r', ?_, hr'e⟩
        rw [hre] at hr'
        cases hrk : r.kind <;> rw [hrk] at hr'
        · exact List.mem_append.mpr (Or.inl hr')
        · exact List.mem_append.mpr (Or.inr hr')

/-- Teardown preserves the connectivity-symmetry invariant. -/
theorem disconnectAll_symmetric (w : ConnWorld) (e : Entity)
    (hs : ConnSymmetric w) : ConnSymmetric (disconnectAll w e) := by
  obtain ⟨hempty, hcases, hzero⟩ := disconnectAll_cases w e hs
  intro a k r hr
  by_cases ha : a = e
  · subst ha
    rw [hempty] at hr
    cases k <;> simp [SegmentConnections.empty, SegmentConnections.get] at hr
  · have hrw : r ∈ (w a).get k := by
      rcases hcases a ha with h | h <;> rw [h] at hr
      · exact removeBackRef_mem _ _ _ _ hr
      · exact hr
    have hrne : r.entity ≠ e := by
      have hz := hzero a
      rw [SegmentConnections.refCount_eq_zero] at hz
      exact hz k r hr
    obtain ⟨hra, hcnt, r', hr', hr'e, hr'k⟩ := hs a k r hrw
    refine ⟨hra, ?_, r', ?_, hr'e, hr'k⟩
    · rcases hcases r.entity hrne with h | h <;> rw [h]
      · rw [removeBackRef_refCount_ne _ _ _ ha]
        exact hcnt
      · exact hcnt
    · have hr'ne : r'.entity ≠ e := by
        rw [hr'e]
        exact ha
      rcases hcases r.entity hrne with h | h <;> rw [h]
      · exact removeBackRef_mem_of _ _ _ _ hr' hr'ne
      · exact hr'

/-- A hidden sibling or self is skipped by the sibling scan. -/
theorem connectStep_skip (segOf : Entity → Segment) (hidden : Entity → Bool)
    (e : Entity) (seg : Segment) (acc : SegmentConnections × ConnWorld)
    (c : Entity) (h : hidden c = true ∨ c = e) :
    connectStep segOf hidden e seg acc c = acc := by
  unfold connectStep
  rcases h with h | h <;> simp [h]

/-- A visible non-self sibling with no matching endpoint pairing is
skipped by the sibling scan. -/
theorem connectStep_none (segOf : Entity → Segment) (hidden : Entity → Bool)
    (e : Entity) (seg : Segment) (acc : SegmentConnections × ConnWorld)
    (c : Entity) (h1 : hidden c = false) (h2 : c ≠ e)
    (h3 : connectPoints seg (segOf c) = none) :
    connectStep segOf hidden e seg acc c = acc := by
  unfold connectStep
  simp [h1, h2, h3]

/-- A visible non-self sibling with a matching endpoint pairing gets the
bidirectional record pair pushed. -/
theorem connectStep_push (segOf : Entity → Segment) (hidden : Entity → Bool)
    (e : Entity) (seg : Segment) (acc : SegmentConnections × ConnWorld)
    (c : Entity) (f t : PointKind) (h1 : hidden c = false) (h2 : c ≠ e)
    (h3 : connectPoints seg (segOf c) = some (f, t)) :
    connectStep segOf hidden e seg acc c =
      (acc.1.push f ⟨c, segOf c, t⟩,
       Function.update acc.2 c ((acc.2 c).push t ⟨e, seg, f⟩)) := by
  unfold connectStep
  simp [h1, h2, h3]

/-- Characterization of the sibling-scan fold of update_connections: the
world changes only at matched visible siblings (one pushed back-record
each), and the accumulated connection set gains exactly the records of
the matched siblings, one per sibling, in the list chosen by the
first-match endpoint pairing. -/
theorem connectFold_spec (segOf : Entity → Segment) (hidden : Entity → Bool)
    (e : Entity) (seg : Segment) :
    ∀ (children : List Entity) (acc : SegmentConnections × ConnWorld),
    children.Nodup →
    (∀ x, x ∉ children →
      (children.foldl (connectStep segOf hidden e seg) acc).2 x = acc.2 x) ∧
    (∀ x, (hidden x = true ∨ x = e ∨ connectPoints seg (segOf x) = none) →
      (children.foldl (connectStep segOf hidden e seg) acc).2 x = acc.2 x) ∧
    (∀ x f t, x ∈ children → hidden x = false → x ≠ e →
      connectPoints seg (segOf x) = some (f, t) →
      (children.foldl (connectStep segOf hidden e seg) acc).2 x =
        (acc.2 x).push t ⟨e, seg, f⟩) ∧
    (∀ k r, r ∈ (children.foldl (connectStep segOf hidden e seg) acc).1.get k ↔
      (r ∈ acc.1.get k ∨ ∃ x t, x ∈ children ∧ hidden x = false ∧ x ≠ e ∧
        connectPoints seg (segOf x) = some (k, t) ∧ r = ⟨x, segOf x, t⟩)) ∧
    (∀ b, (children.foldl (connectStep segOf hidden e seg) acc).1.refCount b =
      acc.1.refCount b +
      (if b ∈ children ∧ hidden b = false ∧ b ≠ e ∧
        (connectPoints seg (segOf b)).isSome = true then 1 else 0))
  | [], acc, _ => by
    refine ⟨fun x _ => rfl, fun x _ => rfl, ?_, ?_, ?_⟩
    · intro x f t hx
      exact absurd hx (List.not_mem_nil x)
    · intro k r
      simp
    · intro b
      simp
  | c :: rest, acc, hnd => by
    obtain ⟨hcrest, hndrest⟩ := List.nodup_cons.mp hnd
    by_cases hel : hidden c = true ∨ c = e
    · have hstep := connectStep_skip segOf hidden e seg acc c hel
      obtain ⟨ih1, ih2, ih3, ih4, ih5⟩ :=
        connectFold_spec segOf hidden e seg rest
          (connectStep segOf hidden e seg acc c) hndrest
      rw [hstep] at ih1 ih2 ih3 ih4 ih5
      refine ⟨?_, ?_, ?_, ?_, ?_⟩
      · intro x hx
        simp only [List.foldl_cons, hstep]
        exact ih1 x (fun h => hx (List.mem_cons_of_mem _ h))
      · intro x hx
        simp only [List.foldl_cons, hstep]
        exact ih2 x hx
      · intro x f t hx h1x h2x h3x
        simp only [List.foldl_cons, hstep]
        rcases List.mem_cons.mp hx with rfl | hx
        · rcases hel with h | h
          · exact absurd h1x (by rw [h]; intro hc; exact Bool.noConfusion hc)
          · exact absurd h h2x
        · exact ih3 x f t hx h1x h2x h3x
      · intro k r
        simp only [List.foldl_cons, hstep]
        rw [ih4 k r]
        constructor
        · rintro (h | ⟨x, t, hx, h1x, h2x, h3x, h4x⟩)
          · exact Or.inl h
          · exact Or.inr ⟨x, t, List.mem_cons_of_mem _ hx, h1x, h2x, h3x, h4x⟩
        · rintro (h | ⟨x, t, hx, h1x, h2x, h3x, h4x⟩)
          · exact Or.inl h
          · rcases List.mem_cons.mp hx with rfl | hx
            · rcases hel with h | h
              · exact absurd h1x (by rw [h]; intro hc; exact Bool.noConfusion hc)
              · exact absurd h h2x
            · exact Or.inr ⟨x, t, hx, h1x, h2x, h3x, h4x⟩
      · intro b
        simp only [List.foldl_cons, hstep]
        rw [ih5 b]
        congr 1
        by_cases hbc : b = c
        · subst hbc
          rw [if_neg, if_neg]
          · rintro ⟨-, h1x, h2x, -⟩
            rcases hel with h | h
            · rw [h] at h1x
              exact Bool.noConfusion h1x
            · exact h2x h
          · rintro ⟨-, h1x, h2x, -⟩
            rcases hel with h | h
            · rw [h] at h1x
              exact Bool.noConfusion h1x
            · exact h2x h
        · have hmem : b ∈ c :: rest ↔ b ∈ rest := by
            simp [List.mem_cons, hbc]
          simp only [hmem]
    · push_neg at hel
      obtain ⟨hcl, hce⟩ := hel
      have hcl' : hidden c = false := by
        cases h : hidden c
        · rfl
        · exact absurd h hcl
      cases hcp : connectPoints seg (segOf c) with
      | none =>
        have hstep := connectStep_none segOf hidden e seg acc c hcl' hce hcp
        obtain ⟨ih1, ih2, ih3, ih4, ih5⟩ :=
          connectFold_spec segOf hidden e seg rest
            (connectStep segOf hidden e seg acc c) hndrest
        rw [hstep] at ih1 ih2 ih3 ih4 ih5
        refine ⟨?_, ?_, ?_, ?_, ?_⟩
        · intro x hx
          simp only [List.foldl_cons, hstep]
          exact ih1 x (fun h => hx (List.mem_cons_of_mem _ h))
        · intro x hx
          simp only [List.foldl_cons, hstep]
          exact ih2 x hx
        · intro x f t hx h1x h2x h3x
          simp only [List.foldl_cons, hstep]
          rcases List.mem_cons.mp hx with rfl | hx
          · rw [hcp] at h3x
            exact Option.noConfusion h3x
          · exact ih3 x f t hx h1x h2x h3x
        · intro k r
          simp only [List.foldl_cons, hstep]
          rw [ih4 k r]
          constructor
          · rintro (h | ⟨x, t, hx, h1x, h2x, h3x, h4x⟩)
            · exact Or.inl h
            · exact Or.inr ⟨x, t, List.mem_cons_of_mem _ hx, h1x, h2x, h3x, h4x⟩
          · rintro (h | ⟨x, t, hx, h1x, h2x, h3x, h4x⟩)
            · exact Or.inl h
            · rcases List.mem_cons.mp hx with rfl | hx
              · rw [hcp] at h3x
                exact Option.noConfusion h3x
              · exact Or.inr ⟨x, t, hx, h1x, h2x, h3x, h4x⟩
        · intro b
          simp only [List.foldl_cons, hstep]
          rw [ih5 b]
          congr 1
          by_cases hbc : b = c
          · subst hbc
            rw [if_neg, if_neg]
            · rintro ⟨-, -, -, hsome⟩
              rw [hcp] at hsome
              exact Bool.noConfusion hsome
            · rintro ⟨-, -, -, hsome⟩
              rw [hcp] at hsome
              exact Bool.noConfusion hsome
          · have hmem : b ∈ c :: rest ↔ b ∈ rest := by
              simp [List.mem_cons, hbc]
            simp only [hmem]
      | some ft =>
        obtain ⟨f0, t0⟩ := ft
        have hstep := connectStep_push segOf hidden e seg acc c f0 t0 hcl' hce hcp
        obtain ⟨ih1, ih2, ih3, ih4, ih5⟩ :=
          connectFold_spec segOf hidden e seg rest
            (connectStep segOf hidden e seg acc c) hndrest
        rw [hstep] at ih1 ih2 ih3 ih4 ih5
        refine ⟨?_, ?_, ?_, ?_, ?_⟩
        · intro x hx
          simp only [List.foldl_cons, hstep]
          rw [ih1 x (fun h => hx (List.mem_cons_of_mem _ h))]
          exact Function.update_noteq
            (fun h => hx (by rw [h]; exact List.mem_cons_self c rest)) _ _
        · intro x hx
          simp only [List.foldl_cons, hstep]
          rw [ih2 x hx]
          have hxc : x ≠ c := by
            rintro rfl
            rcases hx with h | h | h
            · rw [hcl'] at h
              exact Bool.noConfusion h
            · exact hce h
            · rw [hcp] at h
              exact Option.noConfusion h
          exact Function.update_noteq hxc _ _
        · intro x f t hx h1x h2x h3x
          simp only [List.foldl_cons, hstep]
          rcases List.mem_cons.mp hx with rfl | hx
          · rw [hcp] at h3x
            have hf : f0 = f ∧ t0 = t := by
              have := Option.some.inj h3x
              exact ⟨congrArg Prod.fst this, congrArg Prod.snd this⟩
            obtain ⟨rfl, rfl⟩ := hf
            rw [ih1 x hcrest]
            exact Function.update_same _ _ _
          · rw [ih3 x f t hx h1x h2x h3x]
            have hxc : x ≠ c := fun h => hcrest (h ▸ hx)
            exact congrArg (fun s => SegmentConnections.push s t ⟨e, seg, f⟩)
              (Function.update_noteq hxc _ _)
        · intro k r
          simp only [List.foldl_cons, hstep]
          rw [ih4 k r, SegmentConnections.mem_push]
          constructor
          · rintro ((h | ⟨hk, hreq⟩) | ⟨x, t, hx, h1x, h2x, h3x, h4x⟩)
            · exact Or.inl h
            · subst hk
              exact Or.inr ⟨c, t0, List.mem_cons_self c rest, hcl', hce, hcp, hreq⟩
            · exact Or.inr ⟨x, t, List.mem_cons_of_mem _ hx, h1x, h2x, h3x, h4x⟩
          · rintro (h | ⟨x, t, hx, h1x, h2x, h3x, h4x⟩)
            · exact Or.inl (Or.inl h)
            · rcases List.mem_cons.mp hx with rfl | hx
              · rw [hcp] at h3x
                have := Option.some.inj h3x
                have hk : f0 = k := congrArg Prod.fst this
                have ht : t0 = t := congrArg Prod.snd this
                subst hk
                subst ht
                exact Or.inl (Or.inr ⟨rfl, h4x⟩)
              · exact Or.inr ⟨x, t, hx, h1x, h2x, h3x, h4x⟩
        · intro b
          simp only [List.foldl_cons, hstep]
          rw [ih5 b, SegmentConnections.refCount_push]
          by_cases hbc : b = c
          · subst hbc
            rw [if_pos (show (⟨b, segOf b, t0⟩ : SegmentConnection).entity = b from rfl),
              if_neg (show ¬(b ∈ rest ∧ hidden b = false ∧ b ≠ e ∧
                (connectPoints seg (segOf b)).isSome = true) from fun h => hcrest h.1),
              if_pos (show b ∈ b :: rest ∧ hidden b = false ∧ b ≠ e ∧
                (connectPoints seg (segOf b)).isSome = true from
                ⟨List.mem_cons_self b rest, hcl', hce, by rw [hcp]; rfl⟩)]
          · have hmem : (b ∈ c :: rest ∧ hidden b = false ∧ b ≠ e ∧
                (connectPoints seg (segOf b)).isSome = true) ↔
                (b ∈ rest ∧ hidden b = false ∧ b ≠ e ∧
                (connectPoints seg (segOf b)).isSome = true) := by
              simp [List.mem_cons, hbc]
            rw [if_neg (show ¬((⟨c, segOf c, t0⟩ : SegmentConnection).entity = b)
              from fun h => hbc h.symm)]
            simp only [hmem]
            omega

/-- The connectivity-update pass preserves the symmetry invariant. -/
theorem updateConnections_symmetric (segOf : Entity → Segment)
    (hidden : Entity → Bool) (children : List Entity) (e : Entity)
    (w : ConnWorld) (hs : ConnSymmetric w) (hnd : children.Nodup) :
    ConnSymmetric (updateConnections segOf hidden children e w) := by
  have hs1 := disconnectAll_symmetric w e hs
  have hzero := (disconnectAll_cases w e hs).2.2
  unfold updateConnections
  by_cases hcond : (segOf e).start ≠ (segOf e).endp ∧ hidden e = false
  case neg =>
    rw [if_neg hcond]
    exact hs1
  case pos =>
    rw [if_pos hcond]
    obtain ⟨h1, h2, h3, h4, h5⟩ := connectFold_spec segOf hidden e (segOf e)
      children (SegmentConnections.empty, disconnectAll w e) hnd
    set F := children.foldl (connectStep segOf hidden e (segOf e))
      (SegmentConnections.empty, disconnectAll w e) with hF
    have hF2 : ∀ x, x ≠ e → (F.2 x = disconnectAll w e x ∨
        ∃ f t, connectPoints (segOf e) (segOf x) = some (f, t) ∧ x ∈ children ∧
          hidden x = false ∧
          F.2 x = ((disconnectAll w e) x).push t ⟨e, segOf e, f⟩) := by
      intro x hx
      by_cases hxc : x ∈ children
      · by_cases hhid : hidden x = true
        · exact Or.inl (h2 x (Or.inl hhid))
        · have hhid' : hidden x = false := by
            cases h : hidden x
            · rfl
            · exact absurd h hhid
          cases hcp : connectPoints (segOf e) (segOf x) with
          | none => exact Or.inl (h2 x (Or.inr (Or.inr hcp)))
          | some ft =>
            obtain ⟨f, t⟩ := ft
            exact Or.inr ⟨f, t, rfl, hxc, hhid', h3 x f t hxc hhid' hx hcp⟩
      · exact Or.inl (h1 x hxc)
    have hNcount : ∀ b, F.1.refCount b =
        (if b ∈ children ∧ hidden b = false ∧ b ≠ e ∧
          (connectPoints (segOf e) (segOf b)).isSome = true then 1 else 0) := by
      intro b
      rw [h5 b]
      simp [SegmentConnections.empty, SegmentConnections.refCount]
    have hNmem : ∀ k r, r ∈ F.1.get k ↔ ∃ x t, x ∈ children ∧
        hidden x = false ∧ x ≠ e ∧
        connectPoints (segOf e) (segOf x) = some (k, t) ∧
        r = ⟨x, segOf x, t⟩ := by
      intro k r
      constructor
      · intro hr
        rcases (h4 k r).mp hr with h | h
        · exfalso
          cases k <;>
            simp [SegmentConnections.empty, SegmentConnections.get] at h
        · exact h
      · intro h
        exact (h4 k r).mpr (Or.inr h)
    intro a k r hr
    by_cases ha : a = e
    · subst ha
      rw [Function.update_same] at hr
      obtain ⟨x, t, hxch, hxhid, hxne, hcp, rfl⟩ := (hNmem k r).mp hr
      refine ⟨hxne, ?_, ?_⟩
      · show (Function.update F.2 a F.1 x).refCount a = 1
        rw [Function.update_noteq hxne, h3 x k t hxch hxhid hxne hcp,
          SegmentConnections.refCount_push, hzero x]
        simp
      · show ∃ r', r' ∈ (Function.update F.2 a F.1 x).get t ∧ r'.entity = a ∧ r'.kind = k
        rw [Function.update_noteq hxne, h3 x k t hxch hxhid hxne hcp]
        refine ⟨⟨a, segOf a, k⟩, ?_, rfl, rfl⟩
        rw [SegmentConnections.mem_push]
        exact Or.inr ⟨rfl, rfl⟩
    · rw [Function.update_noteq ha] at hr
      have hold : r ∈ ((disconnectAll w e) a).get k →
          r.entity ≠ a ∧
          ((Function.update F.2 e F.1) r.entity).refCount a = 1 ∧
          ∃ r', r' ∈ ((Function.update F.2 e F.1) r.entity).get r.kind ∧
            r'.entity = a ∧ r'.kind = k := by
        intro hro
        have hrne : r.entity ≠ e := by
          have hz := hzero a
          rw [SegmentConnections.refCount_eq_zero] at hz
          exact hz k r hro
        obtain ⟨hra, hcnt, r', hr', hr'e, hr'k⟩ := hs1 a k r hro
        refine ⟨hra, ?_, ?_⟩
        · rw [Function.update_noteq hrne]
          rcases hF2 r.entity hrne with hEq2 | ⟨f2, t2, -, -, -, hEq2⟩ <;> rw [hEq2]
          · exact hcnt
          · rw [SegmentConnections.refCount_push,
              if_neg (show ¬((⟨e, segOf e, f2⟩ : SegmentConnection).entity = a)
                from fun h => ha h.symm), hcnt]
        · rw [Function.update_noteq hrne]
          rcases hF2 r.entity hrne with hEq2 | ⟨f2, t2, -, -, -, hEq2⟩ <;> rw [hEq2]
          · exact ⟨r', hr', hr'e, hr'k⟩
          · exact ⟨r', (SegmentConnections.mem_push _ _ _ _ _).mpr (Or.inl hr'),
              hr'e, hr'k⟩
      rcases hF2 a ha with hEq | ⟨fa, ta, hcpa, hach, hahid, hEq⟩
      · rw [hEq] at hr
        exact hold hr
      · rw [hEq, SegmentConnections.mem_push] at hr
        rcases hr with hr | ⟨hk, rfl⟩
        · exact hold hr
        · refine ⟨fun h => ha h.symm, ?_, ?_⟩
          · show (Function.update F.2 e F.1 e).refCount a = 1
            rw [Function.update_same, hNcount a,
              if_pos ⟨hach, hahid, ha, by rw [hcpa]; rfl⟩]
          · show ∃ r', r' ∈ (Function.update F.2 e F.1 e).get fa ∧
              r'.entity = a ∧ r'.kind = k
            rw [Function.update_same]
            refine ⟨⟨a, segOf a, ta⟩, ?_, rfl, hk.symm⟩
            rw [hNmem]
            exact ⟨a, ta, hach, hahid, ha, hcpa, rfl⟩

/-- Claim C2: connectivity stays symmetric after every
connectivity-update pass and after every teardown pass — whenever A holds
a record referencing B, B holds exactly one record referencing A, located
in the list named by A's record and carrying the complementary endpoint
kind (this is the ConnSymmetric invariant) — and disconnect_all removes
every back-reference to the disconnected entity. -/
theorem c2_connectivity_symmetry (segOf : Entity → Segment)
    (hidden : Entity → Bool) (children : List Entity) (e : Entity)
    (w : ConnWorld) (hs : ConnSymmetric w) (hnd : children.Nodup) :
    ConnSymmetric (updateConnections segOf hidden children e w) ∧
    ConnSymmetric (disconnectAll w e) ∧
    (∀ x, ((disconnectAll w e) x).refCount e = 0) :=
  ⟨updateConnections_symmetric segOf hidden children e w hs hnd,
    disconnectAll_symmetric w e hs,
    (disconnectAll_cases w e hs).2.2⟩

/-- Claim C2 witness: starting from the empty world (trivially
symmetric), updating segment 0 with sibling 1 sharing the same start
point keeps the world symmetric, and teardown leaves no references. -/
theorem c2_connectivity_witness :
    ConnSymmetric (updateConnections (fun _ => ⟨⟨0, 0⟩, ⟨1, 0⟩⟩)
      (fun _ => false) [0, 1] 0 (fun _ => SegmentConnections.empty)) ∧
    ConnSymmetric (disconnectAll (fun _ => SegmentConnections.empty) 0) ∧
    ((disconnectAll (fun _ => SegmentConnections.empty) 0) 5).refCount 0 = 0 := by
  have h := c2_connectivity_symmetry (fun _ => ⟨⟨0, 0⟩, ⟨1, 0⟩⟩)
    (fun _ => false) [0, 1] 0 (fun _ => SegmentConnections.empty)
    (fun a k r hr => absurd hr
      (by cases k <;> simp [SegmentConnections.empty, SegmentConnections.get]))
    (by decide)
  exact ⟨h.1, h.2.1, h.2.2 5⟩

/-- Claim C6: the wall.rs and segment.rs endpoint if-chains agree; after
an update the changed segment holds at most one connection record toward
any sibling, and every record it holds points at a visible non-self
sibling through exactly the first matching endpoint pairing in the
priority order start-start, start-end, end-end, end-start (the
connectPoints chain), with a snapshot of the sibling's segment. -/
theorem c6_first_match_priority (segOf : Entity → Segment)
    (hidden : Entity → Bool) (children : List Entity) (e : Entity)
    (w : ConnWorld) (hs : ConnSymmetric w) (hnd : children.Nodup) :
    (∀ s o : Segment, wallConnectPoints s o = connectPoints s o) ∧
    (∀ b, ((updateConnections segOf hidden children e w) e).refCount b ≤ 1) ∧
    (∀ k r, r ∈ ((updateConnections segOf hidden children e w) e).get k →
      r.entity ∈ children ∧ r.entity ≠ e ∧ hidden r.entity = false ∧
      connectPoints (segOf e) (segOf r.entity) = some (k, r.kind) ∧
      r.segment = segOf r.entity) := by
  refine ⟨fun s o => rfl, ?_⟩
  have hs1 := disconnectAll_cases w e hs
  unfold updateConnections
  by_cases hcond : (segOf e).start ≠ (segOf e).endp ∧ hidden e = false
  case neg =>
    rw [if_neg hcond]
    constructor
    · intro b
      rw [hs1.1]
      simp [SegmentConnections.empty, SegmentConnections.refCount]
    · intro k r hr
      rw [hs1.1] at hr
      cases k <;> simp [SegmentConnections.empty, SegmentConnections.get] at hr
  case pos =>
    rw [if_pos hcond]
    obtain ⟨h1, h2, h3, h4, h5⟩ := connectFold_spec segOf hidden e (segOf e)
      children (SegmentConnections.empty, disconnectAll w e) hnd
    constructor
    · intro b
      rw [Function.update_same, h5 b]
      simp only [SegmentConnections.empty, SegmentConnections.refCount,
        List.countP_nil]
      split_ifs <;> omega
    · intro k r hr
      rw [Function.update_same] at hr
      rcases (h4 k r).mp hr with h | ⟨x, t, hx, h1x, h2x, h3x, h4x⟩
      · exfalso
        cases k <;> simp [SegmentConnections.empty, SegmentConnections.get] at h
      · subst h4x
        exact ⟨hx, h2x, h1x, h3x, rfl⟩

/-- Claim C6 witness: in the two-segment world the updated segment 0
references sibling 1 at most once. -/
theorem c6_first_match_witness :
    ((updateConnections (fun _ => ⟨⟨0, 0⟩, ⟨1, 0⟩⟩) (fun _ => false) [0, 1] 0
      (fun _ => SegmentConnections.empty)) 0).refCount 1 ≤ 1 :=
  (c6_first_match_priority (fun _ => ⟨⟨0, 0⟩, ⟨1, 0⟩⟩) (fun _ => false) [0, 1] 0
    (fun _ => SegmentConnections.empty)
    (fun a k r hr => absurd hr
      (by cases k <;> simp [SegmentConnections.empty, SegmentConnections.get]))
    (by decide)).2.1 1
